import Mathlib

/-!
PathEvolution: obstacle cover, curve sampling, objective function, trajectory queue.

A shallow embedding of `src/PathEvolution/window.cpp`.

Conventions of the embedding.

* Pixel coordinates, image sizes and the grid rectangles built by `coverScenario`
  are natural numbers.  The source stores rectangles in `sf::FloatRect`; every
  coordinate `coverScenario` produces is a non-negative integer, which `float`
  represents exactly below `2 ^ 24`, and `std::ceil` of an integer is that integer.
* `double` and `float` quantities of the curve sampling and of the objective
  function are rationals, so the arithmetic of the loops is exact.
* Library calls whose code is not part of the repository sources (`std::hypot`,
  `std::atan2`, `Util::bezierCurve`, `Util::fromHSV`, the sprite collision query)
  are fields of the window state `Window`.
-/

namespace PathEvolution

/-! ## Images and rectangles -/

/-- An `sf::Color`: the four channels of a pixel. -/
structure Color where
  r : Nat
  g : Nat
  b : Nat
  a : Nat
deriving DecidableEq, Repr

/-- An `sf::Image` as `coverScenario` and `isEmpty` use it: `getSize()` and `getPixel`.
`sf::Image::getPixel` performs no bounds check, so `pixel` is a total function: its values
at coordinates with `x < sizeX` and `y < sizeY` are the pixels of the image, and its values
elsewhere stand for whatever a read outside the pixel buffer returns. -/
structure Image where
  sizeX : Nat
  sizeY : Nat
  pixel : Nat → Nat → Color

/-- The call `image.getPixel(x, y)`. -/
def Image.getPixel (image : Image) (x y : Nat) : Color := image.pixel x y

/-- An `sf::FloatRect` with the integral coordinates `coverScenario` produces. -/
structure FloatRect where
  left : Nat
  top : Nat
  width : Nat
  height : Nat
deriving DecidableEq, Repr

/-- The test of `isEmpty` on one pixel: not transparent and not black. -/
def Color.occupied (color : Color) : Bool :=
  decide (color.a > 0) && decide (color.r + color.g + color.b > 0)

/-- `Window::isEmpty`: scans `x` from `rect.left` to `ceil(rect.left + rect.width)` and
`y` from `rect.top` to `ceil(rect.top + rect.height)`, both bounds included, and returns
`false` at the first pixel that is neither transparent nor black. -/
def isEmpty (image : Image) (rect : FloatRect) : Bool :=
  (List.range' rect.left (rect.width + 1)).all fun x =>
    (List.range' rect.top (rect.height + 1)).all fun y =>
      !(image.getPixel x y).occupied

/-- The rectangle `coverScenario` builds for grid cell `(x, y)`: a square of side `length`,
widened in the last column and heightened in the last row to reach the image border. -/
def cellRect (image : Image) (length xParts yParts x y : Nat) : FloatRect :=
  let rect : FloatRect := ⟨x * length, y * length, length, length⟩
  let rect := if x = xParts - 1 then { rect with width := image.sizeX - x * length } else rect
  if y = yParts - 1 then { rect with height := image.sizeY - y * length } else rect

/-- The statement `rectangles.back().height += h`. -/
def mergeBack : List FloatRect → Nat → List FloatRect
  | [], _ => []
  | [previous], h => [{ previous with height := previous.height + h }]
  | r :: rs, h => r :: mergeBack rs h

/-- One iteration of the inner loop of `coverScenario`; the state is the vector
`rectangles` and the flag `existed`. -/
def coverStep (image : Image) (length xParts yParts x : Nat)
    (st : List FloatRect × Bool) (y : Nat) : List FloatRect × Bool :=
  let rect := cellRect image length xParts yParts x y
  if !isEmpty image rect then
    if st.2 then (mergeBack st.1 rect.height, true)
    else (st.1 ++ [rect], true)
  else (st.1, false)

/-- One iteration of the outer loop of `coverScenario`: `existed` starts `false` and the
rows `0 .. yParts - 1` of column `x` are scanned. -/
def coverColumn (image : Image) (length xParts yParts : Nat)
    (rectangles : List FloatRect) (x : Nat) : List FloatRect :=
  ((List.range yParts).foldl (coverStep image length xParts yParts x) (rectangles, false)).1

/-- `Window::coverScenario`.  `image.getSize().x / length` is an integer division, so the
`std::ceil` around it changes nothing. -/
def coverScenario (image : Image) (length : Nat) : List FloatRect :=
  let xParts := image.sizeX / length
  let yParts := image.sizeY / length
  (List.range xParts).foldl (coverColumn image length xParts yParts) []

/-- Pixel `(x, y)` lies inside the rectangle. -/
def FloatRect.containsPixel (rect : FloatRect) (x y : Nat) : Prop :=
  rect.left ≤ x ∧ x < rect.left + rect.width ∧ rect.top ≤ y ∧ y < rect.top + rect.height

instance (rect : FloatRect) (x y : Nat) : Decidable (rect.containsPixel x y) := by
  unfold FloatRect.containsPixel; infer_instance

/-- Two rectangles share a region of positive area (`sf::Rect::intersects`). -/
def FloatRect.intersects (r s : FloatRect) : Prop :=
  r.left < s.left + s.width ∧ s.left < r.left + r.width ∧
    r.top < s.top + s.height ∧ s.top < r.top + r.height

instance (r s : FloatRect) : Decidable (r.intersects s) := by
  unfold FloatRect.intersects; infer_instance

/-! ## Maximal runs of occupied cells -/

/-- Rows `a .. b - 1` are a maximal run of `occ` among the first `k` rows: every row of the
run is occupied, the row before it (if any) is not, and the row after it (if any, below
`k`) is not. -/
def IsRun (occ : Nat → Bool) (k a b : Nat) : Prop :=
  a < b ∧ b ≤ k ∧ (∀ y, a ≤ y → y < b → occ y = true) ∧
    (0 < a → occ (a - 1) = false) ∧ (b < k → occ b = false)

/-- Grid cell `(x, y)` is occupied for `coverScenario`: `isEmpty` rejects its rectangle. -/
def cellOccupied (image : Image) (length x y : Nat) : Bool :=
  !isEmpty image (cellRect image length (image.sizeX / length) (image.sizeY / length) x y)

/-- The rectangle that spans rows `a .. b - 1` of column `x`: from the top of cell `(x, a)`
to the bottom of cell `(x, b - 1)`, with the width of the column. -/
def runRect (image : Image) (length xParts yParts x a b : Nat) : FloatRect :=
  let first := cellRect image length xParts yParts x a
  let last := cellRect image length xParts yParts x (b - 1)
  ⟨first.left, first.top, first.width, last.top + last.height - first.top⟩

/-- The invariant of the inner loop of `coverScenario` after `k` rows: `runs` lists the
maximal runs among these rows from top to bottom, with a gap between any two, and `existed`
tells whether row `k - 1` is occupied, in which case the last run ends there. -/
structure ColInv (occ : Nat → Bool) (k : Nat) (runs : List (Nat × Nat)) (existed : Bool) :
    Prop where
  mem : ∀ a b, (a, b) ∈ runs ↔ IsRun occ k a b
  sep : runs.Pairwise (fun r s => r.2 < s.1)
  flag : existed = true ↔ (0 < k ∧ occ (k - 1) = true)
  back : existed = true → ∃ init a, runs = init ++ [(a, k)]

/-- Column-major order of runs `(x, a, b)`: an earlier column, or the same column with a
gap of at least one row between the end of the first run and the start of the second. -/
def RunBefore (r s : Nat × Nat × Nat) : Prop :=
  r.1 < s.1 ∨ (r.1 = s.1 ∧ r.2.2 < s.2.1)

/-- Opaque white, `sf::Color::White`. -/
def white : Color := ⟨255, 255, 255, 255⟩

/-- Fully transparent, `sf::Color::Transparent`. -/
def transparent : Color := ⟨0, 0, 0, 0⟩

/-- A 5 x 5 image whose pixels are all opaque white. -/
def smallWhiteImage : Image := ⟨5, 5, fun _ _ => white⟩

/-- A 25 x 35 image whose pixels are all opaque white. -/
def whiteImage : Image := ⟨25, 35, fun _ _ => white⟩

/-- A 1 x 1 image whose only pixel is transparent; reads outside the image return opaque
white. -/
def transparentPixelImage : Image :=
  ⟨1, 1, fun x y => if x < 1 ∧ y < 1 then transparent else white⟩

/-! ## Window state -/

/-- A control point or curve point, `Point2D` (a pair of `double`, read with `.first` and
`.second`). -/
abbrev Point2D := ℚ × ℚ

/-- An `sf::Vector2f`. -/
structure Vector2f where
  x : ℚ
  y : ℚ
deriving DecidableEq, Repr

instance : Sub Vector2f := ⟨fun u v => ⟨u.x - v.x, u.y - v.y⟩⟩

/-- Modelled from the spec: the class `BinarySelector` (`binaryselector.h` is not among the
sources), a toggle with a left and a right option of which exactly one is active. -/
structure BinarySelector where
  rightActive : Bool
deriving DecidableEq, Repr

/-- The call `selector.isLeftActive()`. -/
def BinarySelector.isLeftActive (selector : BinarySelector) : Bool := !selector.rightActive

/-- The call `selector.isRightActive()`. -/
def BinarySelector.isRightActive (selector : BinarySelector) : Bool := selector.rightActive

/-- Modelled from the spec: the class `WeightedBinarySelector` (`weightedbinaryselector.h` is
not among the sources), a `BinarySelector` that also carries a numeric weight. -/
structure WeightedBinarySelector extends BinarySelector where
  weight : ℚ
deriving DecidableEq, Repr

/-- The call `selector.getWeight()`. -/
def WeightedBinarySelector.getWeight (selector : WeightedBinarySelector) : ℚ := selector.weight

/-- The labels the constructor of `Window` gives to the two positions of the three objective
selectors (`objectiveData`, lines 48-63): `setLeftString` gets the second string,
`setRightString` the third. -/
def objectiveLeftString : String := "Minimizar"

/-- See `objectiveLeftString`. -/
def objectiveRightString : String := "Maximizar"

/-- The label of the active position of an objective selector. -/
def BinarySelector.activeString (selector : BinarySelector) : String :=
  if selector.isLeftActive then objectiveLeftString else objectiveRightString

/-- The part of `carSprite` that `carCollides` and the objective function read: position and
rotation. -/
structure Sprite where
  position : Vector2f
  rotation : ℚ
deriving DecidableEq, Repr

/-- The members of `Window` the sampling code reads, with the library functions it calls.
`carCollides` stands for `Window::carCollides` as a function of the car sprite: the method
intersects `carSprite.getGlobalBounds()` (SFML's transform of the sprite by its position and
rotation) with every obstacle rectangle and asks `isEmpty` about the intersection; obstacle
list and scenario image are fixed during a run, and the sampling code uses only the
verdict. -/
structure Window where
  stageSize : Vector2f
  destination : Vector2f
  collisionSelector : WeightedBinarySelector
  distanceSelector : WeightedBinarySelector
  arcLengthSelector : WeightedBinarySelector
  stopSelector : BinarySelector
  hypot : ℚ → ℚ → ℚ
  atan2 : ℚ → ℚ → ℚ
  toDegrees : ℚ → ℚ
  bezierCurve : ℚ → List Point2D → Point2D
  carCollides : Sprite → Bool
  fromHSV : ℚ → ℚ → ℚ → Color

/-- The expression `sf::Vector2f pos(point.first * stageSize.x, point.second * stageSize.y)`
for the curve point at parameter `t`. -/
def Window.curvePos (window : Window) (points : List Point2D) (t : ℚ) : Vector2f :=
  let point := window.bezierCurve t points
  ⟨point.1 * window.stageSize.x, point.2 * window.stageSize.y⟩

/-- The sprite after `carSprite.setPosition(pos)` and
`carSprite.setRotation(Util::toDegrees(std::atan2(delta.y, delta.x)) - 90)` with
`delta = pos - oldPos`. -/
def Window.placeCar (window : Window) (pos oldPos : Vector2f) : Sprite :=
  let delta := pos - oldPos
  ⟨pos, window.toDegrees (window.atan2 delta.y delta.x) - 90⟩

/-! ## `constructBezierCurve` -/

/-- An `sf::Vertex`: position and colour. -/
structure Vertex where
  position : Vector2f
  color : Color
deriving DecidableEq, Repr

/-- The loop `for (double t = 0; t < (1 + step); t += step)` of `constructBezierCurve`, from
parameter `t` on, with the vertex array built so far.  Each unit of fuel pays for one
evaluation of the loop condition; `none` means the fuel ran out. -/
def constructBezierLoop (window : Window) (points : List Point2D) (step : ℚ) (color : Color) :
    Nat → ℚ → Vector2f → List Vertex → Option (List Vertex)
  | 0, _, _, _ => none
  | fuel + 1, t, oldPos, va =>
    if t < 1 + step then
      let pos := window.curvePos points t
      let va := va ++ [⟨pos, color⟩]
      if decide (t > 0) &&
          (window.carCollides (window.placeCar pos oldPos) &&
            window.stopSelector.isRightActive) then
        some va
      else constructBezierLoop window points step color fuel (t + step) pos va
    else some va

/-- `Window::constructBezierCurve`. -/
def constructBezierCurve (window : Window) (points : List Point2D) (step : ℚ) (color : Color)
    (fuel : Nat) : Option (List Vertex) :=
  constructBezierLoop window points step color fuel 0 ⟨0, 0⟩ []

/-- Modelled from the spec: `Util::bezierCurve` (`util.h` is not among the sources), "the
weighted Bezier combination of all control points at parameter t", here by de Casteljau's
repeated interpolation. -/
def deCasteljau (t : ℚ) : Nat → List Point2D → Point2D
  | _, [] => (0, 0)
  | _, [p] => p
  | 0, p :: _ => p
  | n + 1, p :: q :: rest =>
    deCasteljau t n
      (List.zipWith (fun u v => ((1 - t) * u.1 + t * v.1, (1 - t) * u.2 + t * v.2))
        (p :: q :: rest) (q :: rest))

/-- See `deCasteljau`. -/
def bezierCurve (t : ℚ) (points : List Point2D) : Point2D :=
  deCasteljau t points.length points

/-- The vertex `constructBezierCurve` appends at parameter `t`. -/
def bezierVertex (window : Window) (points : List Point2D) (color : Color) (t : ℚ) : Vertex :=
  ⟨window.curvePos points t, color⟩

/-- The car sprite `constructBezierCurve` tests at its sample `k` (parameter `k * step`),
turned along the segment from sample `k - 1`. -/
def bezierSprite (window : Window) (points : List Point2D) (step : ℚ) (k : Nat) : Sprite :=
  window.placeCar (window.curvePos points (k * step))
    (window.curvePos points (((k - 1 : ℕ) : ℚ) * step))

/-! ## The objective function installed by `Window::loop` -/

/-- The local variables of the objective function, with the car sprite it moves. -/
structure ObjectiveState where
  collisions : ℚ
  arcLength : ℚ
  distanceSum : ℚ
  steps : Int
  oldPos : Vector2f
  carSprite : Sprite
deriving DecidableEq, Repr

/-- The constant `double interval = 0.005`. -/
def interval : ℚ := 5 / 1000

/-- The body of the sampling loop up to and including `steps++`; returns the new state and
`pos`. -/
def objectiveBody (window : Window) (points : List Point2D) (t : ℚ) (st : ObjectiveState) :
    ObjectiveState × Vector2f :=
  let pos := window.curvePos points t
  let st :=
    if t ≠ 0 then
      let delta := pos - st.oldPos
      let deltaDestination := pos - window.destination
      let arcLength := st.arcLength +
        window.hypot (delta.x / window.stageSize.x) (delta.y / window.stageSize.y)
      let distanceSum := st.distanceSum +
        window.hypot (deltaDestination.x / window.stageSize.x)
          (deltaDestination.y / window.stageSize.y)
      let carSprite := window.placeCar pos st.oldPos
      let collisions := if window.carCollides carSprite then st.collisions + 1 else st.collisions
      { st with arcLength := arcLength, distanceSum := distanceSum, carSprite := carSprite,
                collisions := collisions }
    else st
  ({ st with steps := st.steps + 1 }, pos)

/-- The loop `for (double t = 0; t <= 1; t += interval)` of the objective function.  Each
unit of fuel pays for one evaluation of the loop condition; `none` means the fuel ran
out. -/
def objectiveLoop (window : Window) (points : List Point2D) :
    Nat → ℚ → ObjectiveState → Option ObjectiveState
  | 0, _, _ => none
  | fuel + 1, t, st =>
    if t ≤ 1 then
      let next := objectiveBody window points t st
      if decide (next.1.collisions > 0) && window.stopSelector.isRightActive then some next.1
      else objectiveLoop window points fuel (t + interval) { next.1 with oldPos := next.2 }
    else some st

/-- The statements of the objective function after the loop: the distance of the car sprite
to the destination, the weights, the sign flips and the sum. -/
def objectiveValue (window : Window) (st : ObjectiveState) : ℚ :=
  let delta := window.destination - st.carSprite.position
  let distance := window.hypot (delta.x / window.stageSize.x) (delta.y / window.stageSize.y)
  let collisions := st.collisions * window.collisionSelector.getWeight
  let distance := distance * window.distanceSelector.getWeight
  let arcLength := st.arcLength * window.arcLengthSelector.getWeight
  let collisions := if window.collisionSelector.isLeftActive then collisions * -1 else collisions
  let arcLength := if window.arcLengthSelector.isLeftActive then arcLength * -1 else arcLength
  let distance := if window.distanceSelector.isLeftActive then distance * -1 else distance
  collisions + arcLength + distance

/-- The objective function run from a given state of its local variables. -/
def objectiveFrom (window : Window) (points : List Point2D) (fuel : Nat)
    (st : ObjectiveState) : Option ℚ :=
  (objectiveLoop window points fuel 0 st).map (objectiveValue window)

/-- The state of the local variables when the loop starts: the counters are zero, `oldPos`
is the default `sf::Vector2f`, and the sprite (whose rotation `rotation` is left from
earlier use) was moved by `carSprite.setPosition(points[0].first, points[0].second)`. -/
def objectiveInit (points : List Point2D) (rotation : ℚ) : ObjectiveState :=
  { collisions := 0, arcLength := 0, distanceSum := 0, steps := 0, oldPos := ⟨0, 0⟩,
    carSprite := ⟨⟨(points.headD (0, 0)).1, (points.headD (0, 0)).2⟩, rotation⟩ }

/-- The lambda passed to `evolver.setObjectiveFunction`, applied to an individual whose
control points (`Util::toPoints2D(ind)`) are `points`. -/
def objectiveFunction (window : Window) (points : List Point2D) (rotation : ℚ) (fuel : Nat) :
    Option ℚ :=
  objectiveFrom window points fuel (objectiveInit points rotation)

/-! ## The samples of the objective function -/

/-- The position of sample `k` of the objective function, taken at `t = k * interval`. -/
def samplePos (window : Window) (points : List Point2D) (k : Nat) : Vector2f :=
  window.curvePos points (k * interval)

/-- The car sprite at sample `k`, placed at the sample and turned along the segment from
sample `k - 1`. -/
def sampleSprite (window : Window) (points : List Point2D) (k : Nat) : Sprite :=
  window.placeCar (samplePos window points k) (samplePos window points (k - 1))

/-- The verdict of `carCollides()` at sample `k`. -/
def sampleCollides (window : Window) (points : List Point2D) (k : Nat) : Bool :=
  window.carCollides (sampleSprite window points k)

/-- The normalized length of the segment from sample `k - 1` to sample `k`. -/
def segmentLength (window : Window) (points : List Point2D) (k : Nat) : ℚ :=
  let delta := samplePos window points k - samplePos window points (k - 1)
  window.hypot (delta.x / window.stageSize.x) (delta.y / window.stageSize.y)

/-- The normalized distance from a position to the destination, as the objective function
computes it after the loop. -/
def goalDistance (window : Window) (position : Vector2f) : ℚ :=
  let delta := window.destination - position
  window.hypot (delta.x / window.stageSize.x) (delta.y / window.stageSize.y)

/-- The local variables after the samples `0 .. m` were evaluated without leaving the
loop. -/
structure SampledTo (window : Window) (points : List Point2D) (m : Nat)
    (st : ObjectiveState) : Prop where
  steps : st.steps = m + 1
  pos : 1 ≤ m → st.carSprite.position = samplePos window points m
  collisions :
    st.collisions = ((List.range' 1 m).countP (sampleCollides window points) : ℕ)
  arcLength : st.arcLength = ((List.range' 1 m).map (segmentLength window points)).sum
  clear : window.stopSelector.isRightActive = true →
    ∀ i, 1 ≤ i → i ≤ m → sampleCollides window points i = false

/-- The local variables when the loop is left and sample `n` was the last one evaluated. -/
structure SampledLast (window : Window) (points : List Point2D) (n : Nat)
    (st : ObjectiveState) : Prop where
  range : 1 ≤ n ∧ n ≤ 200
  steps : st.steps = n + 1
  pos : st.carSprite.position = samplePos window points n
  collisions :
    st.collisions = ((List.range' 1 n).countP (sampleCollides window points) : ℕ)
  arcLength : st.arcLength = ((List.range' 1 n).map (segmentLength window points)).sum
  stopped : window.stopSelector.isRightActive = true →
    (∀ i, 1 ≤ i → i < n → sampleCollides window points i = false) ∧
      (sampleCollides window points n = true ∨ n = 200)
  full : window.stopSelector.isRightActive = false → n = 200

/-- The state with the running sum `distanceSum` cleared. -/
def ObjectiveState.forget (st : ObjectiveState) : ObjectiveState :=
  { st with distanceSum := 0 }

/-- A window in which the car collides at every sample, the stop selector and the three
objective selectors are at their right option, the collision weight is `1` and the other
weights are `0`; all lengths are `0`. -/
def collidingWindow : Window :=
  { stageSize := ⟨1, 1⟩, destination := ⟨0, 0⟩,
    collisionSelector := { rightActive := true, weight := 1 },
    distanceSelector := { rightActive := true, weight := 0 },
    arcLengthSelector := { rightActive := true, weight := 0 },
    stopSelector := { rightActive := true },
    hypot := fun _ _ => 0, atan2 := fun _ _ => 0, toDegrees := fun d => d,
    bezierCurve := bezierCurve, carCollides := fun _ => true,
    fromHSV := fun _ _ _ => white }

/-- A window on a 1 x 1 stage in which the car never collides; every selector is at its
left option and every weight is `1`. -/
def freeWindow : Window :=
  { stageSize := ⟨1, 1⟩, destination := ⟨1, 1⟩,
    collisionSelector := { rightActive := false, weight := 1 },
    distanceSelector := { rightActive := false, weight := 1 },
    arcLengthSelector := { rightActive := false, weight := 1 },
    stopSelector := { rightActive := false },
    hypot := fun u v => |u| + |v|, atan2 := fun _ _ => 0, toDegrees := fun d => d,
    bezierCurve := bezierCurve, carCollides := fun _ => false,
    fromHSV := fun _ _ _ => white }

/-- The control points of the straight line from `(0, 0)` to `(1, 1)`. -/
def diagonal : List Point2D := [(0, 0), (1, 1)]

/-! ## `updateTrajectories` -/

/-- The struct `Trajectory` of `window.h`. -/
structure Trajectory where
  va : List Vertex
  fitness : ℚ
  remainingTime : Int
deriving DecidableEq, Repr

/-- The constant `int limit = 5`, the initial lifetime of a trajectory. -/
def limit : Int := 5

/-- The statement `trajectory.remainingTime--`. -/
def Trajectory.tick (trajectory : Trajectory) : Trajectory :=
  { trajectory with remainingTime := trajectory.remainingTime - 1 }

/-- The loop `while (trajectories.front().remainingTime == 0) trajectories.pop_front()`.
`front()` of an empty deque is undefined behaviour: `none`. -/
def evictFront : List Trajectory → Option (List Trajectory)
  | [] => none
  | front :: rest => if front.remainingTime = 0 then evictFront rest else some (front :: rest)

/-- One member of the evolver's population as `updateTrajectories` reads it: the control
points `Util::toPoints2D(originalPopulation[i])` and the fitness `evolver.getFitness(i)`. -/
abbrev Individual := List Point2D × ℚ

/-- The colour `sf::Color(255, 0, 0, 255)` the curves are built with. -/
def red : Color := ⟨255, 0, 0, 255⟩

/-- The loop that appends one trajectory per individual
(`trajectories.emplace_back(va, evolver.getFitness(i), limit)`); returns the appended
trajectories in order. -/
def publishPopulation (window : Window) (fuel : Nat) : List Individual → Option (List Trajectory)
  | [] => some []
  | individual :: rest =>
    match constructBezierCurve window individual.1 interval red fuel,
        publishPopulation window fuel rest with
    | some va, some appended => some (⟨va, individual.2, limit⟩ :: appended)
    | _, _ => none

/-- The call `std::minmax_element` with the comparison `a.fitness < b.fitness`, read through
`minmax.first->fitness` and `minmax.second->fitness`: the first smallest and the last
largest fitness.  On an empty range both iterators are `end()`: `none`. -/
def minmaxFitness : List Trajectory → Option (ℚ × ℚ)
  | [] => none
  | first :: rest =>
    some (rest.foldl
      (fun m trajectory =>
        (if trajectory.fitness < m.1 then trajectory.fitness else m.1,
         if trajectory.fitness < m.2 then m.2 else trajectory.fitness))
      (first.fitness, first.fitness))

/-- The value of `normalized` for one trajectory: the quotient, replaced by `1` when
`minFitness == maxFitness`. -/
def normalizedFitness (minFitness maxFitness fitness : ℚ) : ℚ :=
  let normalized := (fitness - minFitness) / (maxFitness - minFitness)
  if minFitness = maxFitness then 1 else normalized

/-- The body of the colouring loop for one trajectory: every vertex gets the hue of the
normalized fitness and an alpha that fades with the remaining time. -/
def colorize (window : Window) (minFitness maxFitness : ℚ) (trajectory : Trajectory) :
    Trajectory :=
  let normalized := normalizedFitness minFitness maxFitness trajectory.fitness
  let scale := max 0 ((trajectory.remainingTime : ℚ) / (limit : ℚ))
  { trajectory with
    va := trajectory.va.map fun vertex =>
      { vertex with
        color := { window.fromHSV (normalized * 300 - 180) 1 1 with
                   a := (round (normalized * scale * 255)).toNat } } }

/-- `Window::updateTrajectories` as a function on the deque `trajectories`, for the
population of the evolver. -/
def updateTrajectories (window : Window) (fuel : Nat) (population : List Individual)
    (trajectories : List Trajectory) : Option (List Trajectory) :=
  match evictFront (trajectories.map Trajectory.tick) with
  | none => none
  | some kept =>
    match publishPopulation window fuel population with
    | none => none
    | some appended =>
      match minmaxFitness (kept ++ appended) with
      | none => none
      | some minmax => some ((kept ++ appended).map (colorize window minmax.1 minmax.2))

/-- The calls of `updateTrajectories` made by the solver thread, one per generation, for the
populations the evolver holds after each `improve()`. -/
def runGenerations (window : Window) (fuel : Nat) :
    List (List Individual) → List Trajectory → Option (List Trajectory)
  | [], trajectories => some trajectories
  | population :: later, trajectories =>
    match updateTrajectories window fuel population trajectories with
    | none => none
    | some next => runGenerations window fuel later next

/-- A trajectory without the colours of its vertices, which `updateTrajectories` rewrites
at every call. -/
def Trajectory.uncolored (trajectory : Trajectory) : Trajectory :=
  { trajectory with va := trajectory.va.map fun vertex => { vertex with color := transparent } }

/-- The queue a call of `updateTrajectories` with a non-empty population leaves behind:
remaining times between `1` and `limit`, never decreasing from front to back, and `limit`
at the back. -/
def LiveQueue (trajectories : List Trajectory) : Prop :=
  trajectories.Pairwise (fun s t => s.remainingTime ≤ t.remainingTime) ∧
    (∀ t ∈ trajectories, 1 ≤ t.remainingTime ∧ t.remainingTime ≤ limit) ∧
    ∃ t ∈ trajectories, t.remainingTime = limit

/-! ## The state shared by the solver thread and the display loop -/

/-- The front part of a list up to and including the first element that satisfies `p`: the
elements a loop visits when it returns at the first hit. -/
def takeThrough {α : Type} (p : α → Bool) : List α → List α
  | [] => []
  | a :: l => if p a then [a] else a :: takeThrough p l

/-- The coordinates the two loops of `isEmpty` run through, in order: `x` outer, `y` inner,
both bounds included. -/
def scanCoords (rect : FloatRect) : List (Nat × Nat) :=
  (List.range' rect.left (rect.width + 1)).flatMap fun x =>
    (List.range' rect.top (rect.height + 1)).map fun y => (x, y)

/-- The coordinates at which `isEmpty` calls `image.getPixel(x, y)`, in order: the scan up
to and including the first occupied pixel, where the function returns. -/
def isEmptyReads (image : Image) (rect : FloatRect) : List (Nat × Nat) :=
  takeThrough (fun c => (image.getPixel c.1 c.2).occupied) (scanCoords rect)

/-- The coordinates `isEmpty` reads during a call of `coverScenario`: one call of `isEmpty`
per grid cell, columns outer and rows inner. -/
def coverScenarioReads (image : Image) (length : Nat) : List (Nat × Nat) :=
  (List.range (image.sizeX / length)).flatMap fun x =>
    (List.range (image.sizeY / length)).flatMap fun y =>
      isEmptyReads image
        (cellRect image length (image.sizeX / length) (image.sizeY / length) x y)

/-- A 10 x 10 image whose pixels are all fully transparent; a read outside the image
returns whatever `outside` holds. -/
def transparentImage (outside : Nat → Nat → Color) : Image :=
  ⟨10, 10, fun x y => if x < 10 ∧ y < 10 then transparent else outside x y⟩

/-- The contents of the deque at each evaluation of `trajectories.front()` by the eviction
loop `while (trajectories.front().remainingTime == 0) trajectories.pop_front()`. -/
def frontInspections : List Trajectory → List (List Trajectory)
  | [] => [[]]
  | front :: rest =>
    (front :: rest) :: (if front.remainingTime = 0 then frontInspections rest else [])

/-- The solver thread of `Window::loop` (lines 533-541): `trajectories.clear()`, then one
call of `updateTrajectories` per generation. -/
def solverLoop (window : Window) (fuel : Nat) (populations : List (List Individual)) :
    Option (List Trajectory) :=
  runGenerations window fuel populations []

instance (trajectories : List Trajectory) : Decidable (LiveQueue trajectories) := by
  unfold LiveQueue; infer_instance

/-- A queue that holds one trajectory, appended by the previous call. -/
def oneTrajectory : List Trajectory := [⟨[], 0, 5⟩]

theorem ColInv.zero (occ : Nat → Bool) : ColInv occ 0 [] false where
  mem := by
    intro a b
    simp only [List.not_mem_nil, false_iff]
    rintro ⟨h1, h2, -⟩
    omega
  sep := List.Pairwise.nil
  flag := by simp
  back := by simp

theorem ColInv.step_gap {occ : Nat → Bool} {k : Nat} {runs : List (Nat × Nat)} {existed : Bool}
    (inv : ColInv occ k runs existed) (hk : occ k = false) : ColInv occ (k + 1) runs false where
  mem := by
    intro a b
    rw [inv.mem]
    constructor
    · rintro ⟨h1, h2, h3, h4, h5⟩
      refine ⟨h1, by omega, h3, h4, fun _ => ?_⟩
      rcases Nat.lt_or_ge b k with hb | hb
      · exact h5 hb
      · have : b = k := by omega
        rw [this]; exact hk
    · rintro ⟨h1, h2, h3, h4, h5⟩
      have hb : b ≤ k := by
        by_contra hcon
        have : occ k = true := h3 k (by omega) (by omega)
        rw [hk] at this; exact Bool.noConfusion this
      exact ⟨h1, hb, h3, h4, fun hlt => h5 (by omega)⟩
  sep := inv.sep
  flag := by simp [hk]
  back := by simp

theorem ColInv.step_new {occ : Nat → Bool} {k : Nat} {runs : List (Nat × Nat)}
    (inv : ColInv occ k runs false) (hk : occ k = true) :
    ColInv occ (k + 1) (runs ++ [(k, k + 1)]) true := by
  have hprev : 0 < k → occ (k - 1) = false := by
    intro h0
    have h := inv.flag
    simp only [Bool.false_eq_true, false_iff, not_and, Bool.not_eq_true] at h
    exact h h0
  have hends : ∀ a b, IsRun occ k a b → b < k := by
    rintro a b ⟨h1, h2, h3, -, -⟩
    by_contra hcon
    have hb : b = k := by omega
    have h := h3 (k - 1) (by omega) (by omega)
    rw [hprev (by omega)] at h
    exact Bool.noConfusion h
  refine ⟨?_, ?_, by simp [hk], fun _ => ⟨runs, k, rfl⟩⟩
  · intro a b
    simp only [List.mem_append, List.mem_singleton, Prod.mk.injEq, inv.mem]
    constructor
    · rintro (hr | ⟨rfl, rfl⟩)
      · have hb := hends a b hr
        obtain ⟨h1, h2, h3, h4, h5⟩ := hr
        exact ⟨h1, by omega, h3, h4, fun _ => h5 hb⟩
      · refine ⟨by omega, le_refl _, ?_, hprev, fun h => absurd h (lt_irrefl _)⟩
        intro y hy1 hy2
        have : y = a := by omega
        rw [this]; exact hk
    · rintro ⟨h1, h2, h3, h4, h5⟩
      rcases Nat.lt_or_ge k b with hb | hb
      · right
        refine ⟨?_, by omega⟩
        by_contra hne
        have h := h3 (k - 1) (by omega) (by omega)
        rw [hprev (by omega)] at h
        exact Bool.noConfusion h
      · left
        exact ⟨h1, hb, h3, h4, fun hlt => h5 (by omega)⟩
  · rw [List.pairwise_append]
    refine ⟨inv.sep, List.pairwise_singleton _ _, ?_⟩
    rintro ⟨a, b⟩ hr s hs
    rw [List.mem_singleton] at hs
    subst hs
    exact hends a b ((inv.mem a b).1 hr)

theorem ColInv.step_merge {occ : Nat → Bool} {k a0 : Nat} {init : List (Nat × Nat)}
    (inv : ColInv occ k (init ++ [(a0, k)]) true) (hk : occ k = true) :
    ColInv occ (k + 1) (init ++ [(a0, k + 1)]) true := by
  have hsep := inv.sep
  rw [List.pairwise_append] at hsep
  obtain ⟨hinit, -, hcross⟩ := hsep
  have hrun0 : IsRun occ k a0 k := (inv.mem a0 k).1 (by simp)
  have hprev : occ (k - 1) = true := (inv.flag.1 rfl).2
  have hk0 : 0 < k := (inv.flag.1 rfl).1
  have hinitlt : ∀ a b, (a, b) ∈ init → b < a0 := fun a b h =>
    hcross (a, b) h (a0, k) (List.mem_singleton.2 rfl)
  refine ⟨?_, ?_, by simp [hk], fun _ => ⟨init, a0, rfl⟩⟩
  · intro a b
    simp only [List.mem_append, List.mem_singleton, Prod.mk.injEq]
    constructor
    · rintro (hr | ⟨rfl, rfl⟩)
      · have hb := hinitlt a b hr
        obtain ⟨h1, h2, h3, h4, h5⟩ := (inv.mem a b).1 (List.mem_append_left _ hr)
        obtain ⟨g1, -⟩ := hrun0
        exact ⟨h1, by omega, h3, h4, fun _ => h5 (by omega)⟩
      · obtain ⟨h1, h2, h3, h4, h5⟩ := hrun0
        refine ⟨by omega, le_refl _, ?_, h4, fun h => absurd h (lt_irrefl _)⟩
        intro y hy1 hy2
        rcases Nat.lt_or_ge y k with hy | hy
        · exact h3 y hy1 hy
        · have : y = k := by omega
          rw [this]; exact hk
    · rintro ⟨h1, h2, h3, h4, h5⟩
      rcases Nat.lt_or_ge k b with hb | hb
      · have hbk : b = k + 1 := by omega
        have hak : a < k := by
          by_contra hcon
          have ha : a = k := by omega
          have h := h4 (by omega)
          rw [ha, hprev] at h
          exact Bool.noConfusion h
        have hrun : IsRun occ k a k :=
          ⟨hak, le_refl _, fun y hy1 hy2 => h3 y hy1 (by omega), h4,
            fun h => absurd h (lt_irrefl _)⟩
        have hmem := (inv.mem a k).2 hrun
        simp only [List.mem_append, List.mem_singleton, Prod.mk.injEq] at hmem
        rcases hmem with hr | ⟨ha, -⟩
        · have := hinitlt a k hr
          have := hrun0.1
          omega
        · right; exact ⟨ha, hbk⟩
      · have hbk : b < k := by
          by_contra hcon
          have hb2 : b = k := by omega
          have h := h5 (by omega)
          rw [hb2, hk] at h
          exact Bool.noConfusion h
        have hmem := (inv.mem a b).2 ⟨h1, hb, h3, h4, fun _ => h5 (by omega)⟩
        simp only [List.mem_append, List.mem_singleton, Prod.mk.injEq] at hmem
        rcases hmem with hr | ⟨-, hb2⟩
        · left; exact hr
        · omega
  · rw [List.pairwise_append]
    refine ⟨hinit, List.pairwise_singleton _ _, ?_⟩
    rintro ⟨a, b⟩ hr s hs
    rw [List.mem_singleton] at hs
    subst hs
    exact hinitlt a b hr

/-! ## The result of `coverScenario` -/

theorem mergeBack_append_singleton (l : List FloatRect) (r : FloatRect) (h : Nat) :
    mergeBack (l ++ [r]) h = l ++ [{ r with height := r.height + h }] := by
  induction l with
  | nil => rfl
  | cons a l ih =>
    cases l with
    | nil => rfl
    | cons b l =>
      simp only [List.cons_append] at ih ⊢
      rw [mergeBack, ih]
      simp

theorem cellRect_left (image : Image) (length xParts yParts x y : Nat) :
    (cellRect image length xParts yParts x y).left = x * length := by
  unfold cellRect; split_ifs <;> rfl

theorem cellRect_top (image : Image) (length xParts yParts x y : Nat) :
    (cellRect image length xParts yParts x y).top = y * length := by
  unfold cellRect; split_ifs <;> rfl

theorem cellRect_width (image : Image) (length xParts yParts x y : Nat) :
    (cellRect image length xParts yParts x y).width =
      if x = xParts - 1 then image.sizeX - x * length else length := by
  unfold cellRect; split_ifs <;> rfl

theorem cellRect_height (image : Image) (length xParts yParts x y : Nat) :
    (cellRect image length xParts yParts x y).height =
      if y = yParts - 1 then image.sizeY - y * length else length := by
  unfold cellRect; split_ifs <;> rfl

theorem runRect_single (image : Image) (length xParts yParts x k : Nat) :
    runRect image length xParts yParts x k (k + 1) = cellRect image length xParts yParts x k := by
  unfold runRect
  simp only [Nat.add_sub_cancel, Nat.add_sub_cancel_left]

theorem runRect_grow (image : Image) (length xParts yParts x a k : Nat) (hak : a < k)
    (hk : k < yParts) :
    ({ runRect image length xParts yParts x a k with
        height := (runRect image length xParts yParts x a k).height +
          (cellRect image length xParts yParts x k).height } : FloatRect) =
      runRect image length xParts yParts x a (k + 1) := by
  unfold runRect
  simp only [Nat.add_sub_cancel, cellRect_top, cellRect_height, FloatRect.mk.injEq, true_and]
  have h1 : ¬ (k - 1 = yParts - 1) := by omega
  rw [if_neg h1]
  have h2 : (k - 1) * length + length = k * length := by
    have : k = (k - 1) + 1 := by omega
    conv_rhs => rw [this, Nat.add_mul, Nat.one_mul]
  have h3 : a * length ≤ k * length := Nat.mul_le_mul_right _ (Nat.le_of_lt hak)
  rw [h2]
  omega

/-- The inner loop of `coverScenario` after `k` rows of column `x`: the rectangles appended
to the vector are the rectangles of the maximal runs among these rows. -/
theorem coverStep_foldl (image : Image) (length xParts yParts x : Nat)
    (rectangles : List FloatRect) (k : Nat) (hk : k ≤ yParts) :
    ∃ runs existed,
      (List.range k).foldl (coverStep image length xParts yParts x) (rectangles, false) =
        (rectangles ++ runs.map (fun r => runRect image length xParts yParts x r.1 r.2),
          existed) ∧
      ColInv (fun y => !isEmpty image (cellRect image length xParts yParts x y)) k runs
        existed := by
  induction k with
  | zero => exact ⟨[], false, by simp, ColInv.zero _⟩
  | succ k ih =>
    obtain ⟨runs, existed, hfold, inv⟩ := ih (by omega)
    rw [List.range_succ, List.foldl_append, hfold]
    simp only [List.foldl_cons, List.foldl_nil]
    cases hocc : isEmpty image (cellRect image length xParts yParts x k) with
    | true =>
      refine ⟨runs, false, ?_, inv.step_gap ?_⟩
      · simp [coverStep, hocc]
      · simp [hocc]
    | false =>
      have hk1 : (fun y => !isEmpty image (cellRect image length xParts yParts x y)) k = true := by
        simp [hocc]
      cases existed with
      | false =>
        refine ⟨runs ++ [(k, k + 1)], true, ?_, inv.step_new hk1⟩
        simp [coverStep, hocc, runRect_single]
      | true =>
        obtain ⟨init, a0, rfl⟩ := inv.back rfl
        have hrun := (inv.mem a0 k).1 (by simp)
        refine ⟨init ++ [(a0, k + 1)], true, ?_, inv.step_merge hk1⟩
        simp only [coverStep, hocc, Bool.not_false, if_true, List.map_append, List.map_cons,
          List.map_nil, ← List.append_assoc, mergeBack_append_singleton]
        rw [runRect_grow image length xParts yParts x a0 k hrun.1 (by omega)]

/-- The outer loop of `coverScenario` after `k` columns. -/
theorem coverColumn_foldl (image : Image) (length xParts yParts k : Nat) :
    ∃ runs : List (Nat × Nat × Nat),
      (List.range k).foldl (coverColumn image length xParts yParts) [] =
        runs.map (fun r => runRect image length xParts yParts r.1 r.2.1 r.2.2) ∧
      (∀ x a b, (x, a, b) ∈ runs ↔ x < k ∧
        IsRun (fun y => !isEmpty image (cellRect image length xParts yParts x y)) yParts a b) ∧
      runs.Pairwise RunBefore := by
  induction k with
  | zero => exact ⟨[], by simp, by simp, List.Pairwise.nil⟩
  | succ k ih =>
    obtain ⟨runs, hfold, hmem, hord⟩ := ih
    obtain ⟨col, existed, hcol, inv⟩ :=
      coverStep_foldl image length xParts yParts k
        (runs.map (fun r => runRect image length xParts yParts r.1 r.2.1 r.2.2)) yParts
        (le_refl _)
    refine ⟨runs ++ col.map (fun r => (k, r.1, r.2)), ?_, ?_, ?_⟩
    · rw [List.range_succ, List.foldl_append, hfold]
      simp only [List.foldl_cons, List.foldl_nil, coverColumn, hcol, List.map_append,
        List.map_map]
      rfl
    · intro x a b
      simp only [List.mem_append, hmem, List.mem_map, Prod.mk.injEq, Prod.exists]
      constructor
      · rintro (⟨hx, hr⟩ | ⟨a1, b1, hr, rfl, rfl, rfl⟩)
        · exact ⟨by omega, hr⟩
        · exact ⟨by omega, (inv.mem _ _).1 hr⟩
      · rintro ⟨hx, hr⟩
        rcases Nat.lt_or_ge x k with hlt | hge
        · left; exact ⟨hlt, hr⟩
        · have hxk : x = k := by omega
          subst hxk
          right
          exact ⟨a, b, (inv.mem _ _).2 hr, rfl, rfl, rfl⟩
    · rw [List.pairwise_append]
      refine ⟨hord, ?_, ?_⟩
      · rw [List.pairwise_map]
        exact inv.sep.imp (fun h => Or.inr ⟨rfl, h⟩)
      · rintro ⟨x, a, b⟩ hr s hs
        rw [List.mem_map] at hs
        obtain ⟨c, -, rfl⟩ := hs
        exact Or.inl ((hmem x a b).1 hr).1

theorem runRect_before (image : Image) (length xParts yParts : Nat) (hlen : 0 < length)
    (r s : Nat × Nat × Nat) (hr : r.2.1 < r.2.2) (hs1 : s.1 < xParts) (hs2 : s.2.1 < s.2.2)
    (hs3 : s.2.2 ≤ yParts) (h : RunBefore r s) :
    (runRect image length xParts yParts r.1 r.2.1 r.2.2).left +
        (runRect image length xParts yParts r.1 r.2.1 r.2.2).width ≤
        (runRect image length xParts yParts s.1 s.2.1 s.2.2).left ∧
      (runRect image length xParts yParts r.1 r.2.1 r.2.2).left <
        (runRect image length xParts yParts s.1 s.2.1 s.2.2).left ∨
    (runRect image length xParts yParts r.1 r.2.1 r.2.2).left =
        (runRect image length xParts yParts s.1 s.2.1 s.2.2).left ∧
      (runRect image length xParts yParts r.1 r.2.1 r.2.2).top +
        (runRect image length xParts yParts r.1 r.2.1 r.2.2).height <
        (runRect image length xParts yParts s.1 s.2.1 s.2.2).top := by
  obtain ⟨x, a, b⟩ := r
  obtain ⟨x1, a1, b1⟩ := s
  simp only at hr hs1 hs2 hs3
  unfold runRect
  simp only [cellRect_left, cellRect_top, cellRect_width, cellRect_height]
  rcases h with h | ⟨h1, h2⟩
  · left
    simp only at h
    have hx : ¬ (x = xParts - 1) := by omega
    rw [if_neg hx]
    have h1 : x * length + length = (x + 1) * length := by rw [Nat.add_mul, Nat.one_mul]
    have h2 : (x + 1) * length ≤ x1 * length := Nat.mul_le_mul_right _ h
    omega
  · right
    simp only at h1 h2
    subst h1
    refine ⟨rfl, ?_⟩
    have hb : ¬ (b - 1 = yParts - 1) := by omega
    rw [if_neg hb]
    have h3 : (b - 1) * length + length = b * length := by
      have : b = (b - 1) + 1 := by omega
      conv_rhs => rw [this, Nat.add_mul, Nat.one_mul]
    have h4 : a * length ≤ b * length := Nat.mul_le_mul_right _ (Nat.le_of_lt hr)
    have h5 : (b + 1) * length ≤ a1 * length := Nat.mul_le_mul_right _ h2
    rw [Nat.add_mul, Nat.one_mul] at h5
    omega

/-- C8: for a positive cell size the rectangles returned by `coverScenario` are, in
column-major order, the rectangles of the maximal runs of occupied cells of each grid
column (a cell is occupied when `isEmpty` rejects its rectangle): the result is the image
of a list `runs` of triples (column, first row, row after the last) that holds exactly the
maximal runs, each once, ordered by column and then by row; no two returned rectangles
intersect, and two rectangles of one column are separated by a gap. -/
theorem coverScenario_maximal_runs (image : Image) (length : Nat) (hlen : 0 < length) :
    ∃ runs : List (Nat × Nat × Nat),
      coverScenario image length =
        runs.map (fun r =>
          runRect image length (image.sizeX / length) (image.sizeY / length) r.1 r.2.1 r.2.2) ∧
      (∀ x a b, (x, a, b) ∈ runs ↔
        x < image.sizeX / length ∧
          IsRun (cellOccupied image length x) (image.sizeY / length) a b) ∧
      runs.Pairwise RunBefore ∧
      (coverScenario image length).Pairwise (fun r s => ¬ r.intersects s) ∧
      (coverScenario image length).Pairwise
        (fun r s => r.left = s.left → r.top + r.height < s.top) := by
  obtain ⟨runs, hfold, hmem, hord⟩ :=
    coverColumn_foldl image length (image.sizeX / length) (image.sizeY / length)
      (image.sizeX / length)
  have hcover : coverScenario image length =
      runs.map (fun r =>
        runRect image length (image.sizeX / length) (image.sizeY / length) r.1 r.2.1 r.2.2) :=
    hfold
  have hboth : runs.Pairwise (fun r s =>
      (runRect image length (image.sizeX / length) (image.sizeY / length) r.1 r.2.1 r.2.2).left +
          (runRect image length (image.sizeX / length) (image.sizeY / length)
            r.1 r.2.1 r.2.2).width ≤
          (runRect image length (image.sizeX / length) (image.sizeY / length)
            s.1 s.2.1 s.2.2).left ∧
        (runRect image length (image.sizeX / length) (image.sizeY / length)
            r.1 r.2.1 r.2.2).left <
          (runRect image length (image.sizeX / length) (image.sizeY / length)
            s.1 s.2.1 s.2.2).left ∨
      (runRect image length (image.sizeX / length) (image.sizeY / length) r.1 r.2.1 r.2.2).left =
          (runRect image length (image.sizeX / length) (image.sizeY / length)
            s.1 s.2.1 s.2.2).left ∧
        (runRect image length (image.sizeX / length) (image.sizeY / length)
            r.1 r.2.1 r.2.2).top +
          (runRect image length (image.sizeX / length) (image.sizeY / length)
            r.1 r.2.1 r.2.2).height <
          (runRect image length (image.sizeX / length) (image.sizeY / length)
            s.1 s.2.1 s.2.2).top) := by
    refine hord.imp_of_mem ?_
    rintro ⟨x, a, b⟩ ⟨x1, a1, b1⟩ hr hs h
    have gr := (hmem x a b).1 hr
    have gs := (hmem x1 a1 b1).1 hs
    exact runRect_before image length _ _ hlen _ _ gr.2.1 gs.1 gs.2.1 gs.2.2.1 h
  refine ⟨runs, hcover, hmem, hord, ?_, ?_⟩
  · rw [hcover, List.pairwise_map]
    refine hboth.imp ?_
    intro r s h
    unfold FloatRect.intersects
    rcases h with ⟨h, -⟩ | ⟨-, h⟩ <;> omega
  · rw [hcover, List.pairwise_map]
    refine hboth.imp ?_
    intro r s h heq
    rcases h with ⟨-, h⟩ | ⟨-, h⟩ <;> omega

theorem coverScenario_maximal_runs_witness :
    0 < 10 ∧ ∃ runs : List (Nat × Nat × Nat),
      coverScenario whiteImage 10 =
        runs.map (fun r =>
          runRect whiteImage 10 (whiteImage.sizeX / 10) (whiteImage.sizeY / 10)
            r.1 r.2.1 r.2.2) ∧
      (∀ x a b, (x, a, b) ∈ runs ↔
        x < whiteImage.sizeX / 10 ∧
          IsRun (cellOccupied whiteImage 10 x) (whiteImage.sizeY / 10) a b) ∧
      runs.Pairwise RunBefore ∧
      (coverScenario whiteImage 10).Pairwise (fun r s => ¬ r.intersects s) ∧
      (coverScenario whiteImage 10).Pairwise
        (fun r s => r.left = s.left → r.top + r.height < s.top) :=
  ⟨by decide, coverScenario_maximal_runs whiteImage 10 (by decide)⟩

/-- C1, at the failing input: in the 5 x 5 all-white image scanned with cell size 10 the
pixel `(0, 0)` lies in the image and is occupied (alpha above zero, not black), yet
`coverScenario` returns no rectangle at all, because `xParts = yParts = 5 / 10 = 0`; so
no returned rectangle contains the pixel. -/
theorem coverScenario_small_image_uncovered :
    0 < smallWhiteImage.sizeX ∧ 0 < smallWhiteImage.sizeY ∧
      (smallWhiteImage.getPixel 0 0).a > 0 ∧
      (smallWhiteImage.getPixel 0 0).r + (smallWhiteImage.getPixel 0 0).g +
        (smallWhiteImage.getPixel 0 0).b > 0 ∧
      smallWhiteImage.sizeX / 10 = 0 ∧ smallWhiteImage.sizeY / 10 = 0 ∧
      coverScenario smallWhiteImage 10 = [] ∧
      ¬ ∃ rect ∈ coverScenario smallWhiteImage 10, rect.containsPixel 0 0 := by
  decide

/-- C7, at the failing input: the only pixel of the 1 x 1 image is fully transparent, but
for the cell `(0, 0, 1, 1)` `isEmpty` also calls `getPixel` at `(0, 1)`, `(1, 0)` and
`(1, 1)`, outside the image, and when such a read returns an occupied colour
`coverScenario` returns a rectangle. -/
theorem coverScenario_transparent_nonempty :
    (∀ x < transparentPixelImage.sizeX, ∀ y < transparentPixelImage.sizeY,
        (transparentPixelImage.getPixel x y).a = 0) ∧
      isEmpty transparentPixelImage ⟨0, 0, 1, 1⟩ = false ∧
      coverScenario transparentPixelImage 1 = [⟨0, 0, 1, 1⟩] := by
  decide

theorem isEmpty_of_unoccupied (image : Image)
    (h : ∀ x y, (image.getPixel x y).occupied = false) (rect : FloatRect) :
    isEmpty image rect = true := by
  simp [isEmpty, h]

/-- When no read of `getPixel`, inside or outside the image, returns an occupied colour,
`coverScenario` returns the empty list. -/
theorem coverScenario_nil_of_unoccupied (image : Image) (length : Nat)
    (h : ∀ x y, (image.getPixel x y).occupied = false) : coverScenario image length = [] := by
  have hstep : ∀ (x : Nat) (rows : List Nat) (rectangles : List FloatRect),
      rows.foldl (coverStep image length (image.sizeX / length) (image.sizeY / length) x)
        (rectangles, false) = (rectangles, false) := by
    intro x rows
    induction rows with
    | nil => intro rectangles; rfl
    | cons y rows ih =>
      intro rectangles
      rw [List.foldl_cons]
      have : coverStep image length (image.sizeX / length) (image.sizeY / length) x
          (rectangles, false) y = (rectangles, false) := by
        simp [coverStep, isEmpty_of_unoccupied image h]
      rw [this, ih]
  have hcol : ∀ (columns : List Nat) (rectangles : List FloatRect),
      columns.foldl (coverColumn image length (image.sizeX / length) (image.sizeY / length))
        rectangles = rectangles := by
    intro columns
    induction columns with
    | nil => intro rectangles; rfl
    | cons x columns ih =>
      intro rectangles
      rw [List.foldl_cons, coverColumn, hstep, ih]
  exact hcol _ _

/-! ## The objective function -/

theorem interval_pos : 0 < interval := by unfold interval; norm_num

theorem sample_time_le_one (k : Nat) : (k : ℚ) * interval ≤ 1 ↔ k ≤ 200 := by
  unfold interval
  constructor
  · intro h
    have h2 : (k : ℚ) ≤ 200 := by linarith
    exact_mod_cast h2
  · intro h
    have h2 : (k : ℚ) ≤ 200 := by exact_mod_cast h
    linarith

theorem objectiveBody_of_ne (window : Window) (points : List Point2D) (t : ℚ)
    (st : ObjectiveState) (ht : t ≠ 0) :
    (objectiveBody window points t st).2 = window.curvePos points t ∧
      (objectiveBody window points t st).1.steps = st.steps + 1 ∧
      (objectiveBody window points t st).1.carSprite =
        window.placeCar (window.curvePos points t) st.oldPos ∧
      (objectiveBody window points t st).1.arcLength =
        st.arcLength +
          window.hypot ((window.curvePos points t - st.oldPos).x / window.stageSize.x)
            ((window.curvePos points t - st.oldPos).y / window.stageSize.y) ∧
      (objectiveBody window points t st).1.collisions =
        if window.carCollides (window.placeCar (window.curvePos points t) st.oldPos) then
          st.collisions + 1
        else st.collisions := by
  unfold objectiveBody
  simp [ht]

theorem objectiveBody_sample (window : Window) (points : List Point2D) (m : Nat)
    (st : ObjectiveState) (hold : st.oldPos = samplePos window points m) :
    (objectiveBody window points (((m + 1 : ℕ) : ℚ) * interval) st).2 =
        samplePos window points (m + 1) ∧
      (objectiveBody window points (((m + 1 : ℕ) : ℚ) * interval) st).1.steps = st.steps + 1 ∧
      (objectiveBody window points (((m + 1 : ℕ) : ℚ) * interval) st).1.carSprite =
        sampleSprite window points (m + 1) ∧
      (objectiveBody window points (((m + 1 : ℕ) : ℚ) * interval) st).1.arcLength =
        st.arcLength + segmentLength window points (m + 1) ∧
      (objectiveBody window points (((m + 1 : ℕ) : ℚ) * interval) st).1.collisions =
        if sampleCollides window points (m + 1) then st.collisions + 1 else st.collisions := by
  have ht : (((m + 1 : ℕ) : ℚ) * interval) ≠ 0 := by
    have := interval_pos
    positivity
  obtain ⟨h1, h2, h3, h4, h5⟩ := objectiveBody_of_ne window points _ st ht
  rw [h1, h2, h3, h4, h5, hold]
  exact ⟨rfl, rfl, rfl, rfl, rfl⟩

theorem range'_one_succ (m : Nat) : List.range' 1 (m + 1) = List.range' 1 m ++ [m + 1] := by
  rw [List.range'_concat]; simp [Nat.add_comm]

theorem countP_range'_one_succ (p : Nat → Bool) (m : Nat) :
    (((List.range' 1 (m + 1)).countP p : ℕ) : ℚ) =
      if p (m + 1) then (((List.range' 1 m).countP p : ℕ) : ℚ) + 1
      else (((List.range' 1 m).countP p : ℕ) : ℚ) := by
  rw [range'_one_succ, List.countP_append]
  cases hp : p (m + 1) <;> simp [List.countP_cons, hp]

theorem sum_range'_one_succ (f : Nat → ℚ) (m : Nat) :
    ((List.range' 1 (m + 1)).map f).sum = ((List.range' 1 m).map f).sum + f (m + 1) := by
  rw [range'_one_succ]; simp

/-- The loop of the objective function from sample `m + 1` on: it returns, and the state it
returns is the one described by `SampledLast` for the last sample evaluated. -/
theorem objectiveLoop_sampled (window : Window) (points : List Point2D) :
    ∀ (r m fuel : Nat) (st : ObjectiveState), m + r = 200 → r + 1 ≤ fuel →
      st.oldPos = samplePos window points m → SampledTo window points m st →
      ∃ st1 n, objectiveLoop window points fuel (((m + 1 : ℕ) : ℚ) * interval) st = some st1 ∧
        SampledLast window points n st1 := by
  intro r
  induction r with
  | zero =>
    intro m fuel st hm hfuel hold inv
    obtain ⟨f, rfl⟩ : ∃ f, fuel = f + 1 := ⟨fuel - 1, by omega⟩
    have hm200 : m = 200 := by omega
    subst hm200
    have ht : ¬ ((((200 + 1 : ℕ) : ℚ)) * interval ≤ 1) := by
      rw [sample_time_le_one]; omega
    refine ⟨st, 200, ?_, ?_⟩
    · rw [objectiveLoop, if_neg ht]
    · exact ⟨⟨by omega, le_refl _⟩, inv.steps, inv.pos (by omega), inv.collisions,
        inv.arcLength,
        fun hs => ⟨fun i h1 h2 => inv.clear hs i h1 (by omega), Or.inr rfl⟩, fun _ => rfl⟩
  | succ r ih =>
    intro m fuel st hm hfuel hold inv
    obtain ⟨f, rfl⟩ : ∃ f, fuel = f + 1 := ⟨fuel - 1, by omega⟩
    have ht : (((m + 1 : ℕ) : ℚ)) * interval ≤ 1 := (sample_time_le_one _).2 (by omega)
    obtain ⟨h1, h2, h3, h4, h5⟩ := objectiveBody_sample window points m st hold
    have hcount : (objectiveBody window points (((m + 1 : ℕ) : ℚ) * interval) st).1.collisions =
        (((List.range' 1 (m + 1)).countP (sampleCollides window points) : ℕ) : ℚ) := by
      rw [h5, countP_range'_one_succ, inv.collisions]
    have harc : (objectiveBody window points (((m + 1 : ℕ) : ℚ) * interval) st).1.arcLength =
        ((List.range' 1 (m + 1)).map (segmentLength window points)).sum := by
      rw [h4, sum_range'_one_succ, inv.arcLength]
    have hsteps : (objectiveBody window points (((m + 1 : ℕ) : ℚ) * interval) st).1.steps =
        ((m + 1 : ℕ) : ℤ) + 1 := by
      rw [h2, inv.steps]; push_cast; ring
    have hpos : (objectiveBody window points (((m + 1 : ℕ) : ℚ) * interval)
        st).1.carSprite.position = samplePos window points (m + 1) := by
      rw [h3]; rfl
    have hnonneg : (0 : ℚ) ≤ st.collisions := by
      rw [inv.collisions]; exact Nat.cast_nonneg _
    rw [objectiveLoop, if_pos ht]
    by_cases hbreak :
        (decide ((objectiveBody window points (((m + 1 : ℕ) : ℚ) * interval) st).1.collisions
          > 0) && window.stopSelector.isRightActive) = true
    · simp only [hbreak, if_true]
      refine ⟨_, m + 1, rfl, ⟨by omega, by omega⟩, hsteps, hpos, hcount, harc, ?_, ?_⟩
      · intro hs
        refine ⟨fun i i1 i2 => inv.clear hs i i1 (by omega), Or.inl ?_⟩
        simp only [Bool.and_eq_true, decide_eq_true_eq] at hbreak
        have hgt := hbreak.1
        rw [h5] at hgt
        by_contra hcol
        rw [Bool.not_eq_true] at hcol
        have hzero : st.collisions = 0 := by
          rw [inv.collisions]
          have : (List.range' 1 m).countP (sampleCollides window points) = 0 := by
            rw [List.countP_eq_zero]
            intro i hi
            rw [List.mem_range'_1] at hi
            rw [inv.clear hs i hi.1 (by omega)]
            exact Bool.false_ne_true
          rw [this]; rfl
        rw [hcol, hzero] at hgt
        simp at hgt
      · intro hs
        rw [hs] at hbreak
        simp at hbreak
    · simp only [hbreak, Bool.false_eq_true, if_false]
      have hnext : (((m + 1 : ℕ) : ℚ)) * interval + interval = (((m + 1 + 1 : ℕ) : ℚ)) * interval := by
        push_cast; ring
      rw [hnext]
      apply ih (m + 1) f _ (by omega) (by omega)
      · exact h1
      · refine ⟨hsteps, fun _ => hpos, hcount, harc, ?_⟩
        intro hs i i1 i2
        rcases Nat.lt_or_ge i (m + 1) with hlt | hge
        · exact inv.clear hs i i1 (by omega)
        · have hi : i = m + 1 := by omega
          subst hi
          by_contra hcol
          rw [Bool.not_eq_false] at hcol
          apply hbreak
          rw [hs, Bool.and_true, decide_eq_true_eq, h5, hcol]
          simp only [if_true]
          linarith

/-- The whole loop of the objective function: with fuel for its 202 evaluations of the loop
condition it returns, in the state described by `SampledLast`. -/
theorem objectiveLoop_init (window : Window) (points : List Point2D) (fuel : Nat)
    (hfuel : 202 ≤ fuel) (st : ObjectiveState) (hc : st.collisions = 0)
    (ha : st.arcLength = 0) (hs : st.steps = 0) :
    ∃ st1 n, objectiveLoop window points fuel 0 st = some st1 ∧
      SampledLast window points n st1 := by
  obtain ⟨f, rfl⟩ : ∃ f, fuel = f + 1 := ⟨fuel - 1, by omega⟩
  have hbody : objectiveBody window points 0 st =
      ({ st with steps := st.steps + 1 }, samplePos window points 0) := by
    simp [objectiveBody, samplePos]
  rw [objectiveLoop, if_pos (by norm_num), hbody]
  simp only [hc, gt_iff_lt, lt_self_iff_false, decide_False, Bool.false_and,
    Bool.false_eq_true, if_false]
  have hnext : (0 : ℚ) + interval = (((0 + 1 : ℕ) : ℚ)) * interval := by
    push_cast; ring
  rw [hnext]
  apply objectiveLoop_sampled window points 200 0 f _ (by omega) (by omega) rfl
  refine ⟨by simp [hs], fun h => absurd h (by omega), by simp [hc], by simp [ha], ?_⟩
  intro _ i i1 i2
  omega

theorem objectiveValue_forget (window : Window) (st : ObjectiveState) :
    objectiveValue window st.forget = objectiveValue window st := rfl

theorem objectiveLoop_succ (window : Window) (points : List Point2D) (fuel : Nat) (t : ℚ)
    (st : ObjectiveState) :
    objectiveLoop window points (fuel + 1) t st =
      if t ≤ 1 then
        if (decide ((objectiveBody window points t st).1.collisions > 0) &&
            window.stopSelector.isRightActive) = true then
          some (objectiveBody window points t st).1
        else
          objectiveLoop window points fuel (t + interval)
            { (objectiveBody window points t st).1 with
              oldPos := (objectiveBody window points t st).2 }
      else some st := by
  rw [objectiveLoop]

/-- C2, as the code has it: the objective function returns the sum of the three weighted
values, each negated exactly when its selector is at the left option, labelled
"Minimizar", and added unchanged when the selector is at the right option, labelled
"Maximizar". -/
theorem objectiveFunction_signs (window : Window) (points : List Point2D) (rotation : ℚ)
    (fuel : Nat) (hfuel : 202 ≤ fuel) :
    (∃ st, objectiveLoop window points fuel 0 (objectiveInit points rotation) = some st ∧
      objectiveFunction window points rotation fuel =
        some ((if window.collisionSelector.toBinarySelector.activeString = "Minimizar" then
                -(st.collisions * window.collisionSelector.getWeight)
              else st.collisions * window.collisionSelector.getWeight) +
            (if window.arcLengthSelector.toBinarySelector.activeString = "Minimizar" then
                -(st.arcLength * window.arcLengthSelector.getWeight)
              else st.arcLength * window.arcLengthSelector.getWeight) +
            (if window.distanceSelector.toBinarySelector.activeString = "Minimizar" then
                -(goalDistance window st.carSprite.position * window.distanceSelector.getWeight)
              else goalDistance window st.carSprite.position *
                window.distanceSelector.getWeight))) ∧
      ∀ selector : BinarySelector,
        (selector.activeString = "Minimizar" ↔ selector.isLeftActive = true) ∧
          (selector.activeString = "Maximizar" ↔ selector.isRightActive = true) := by
  have hlabel : ∀ selector : BinarySelector,
      (selector.activeString = "Minimizar" ↔ selector.isLeftActive = true) ∧
        (selector.activeString = "Maximizar" ↔ selector.isRightActive = true) := by
    rintro ⟨_ | _⟩ <;> decide
  obtain ⟨st, n, hloop, -⟩ :=
    objectiveLoop_init window points fuel hfuel (objectiveInit points rotation) rfl rfl rfl
  refine ⟨⟨st, hloop, ?_⟩, hlabel⟩
  unfold objectiveFunction objectiveFrom
  rw [hloop, Option.map_some']
  unfold objectiveValue goalDistance
  simp only [(hlabel _).1, Option.some.injEq]
  split_ifs <;> ring

theorem objectiveFunction_signs_witness :
    202 ≤ 202 ∧
    (∃ st, objectiveLoop freeWindow diagonal 202 0 (objectiveInit diagonal 0) = some st ∧
      objectiveFunction freeWindow diagonal 0 202 =
        some ((if freeWindow.collisionSelector.toBinarySelector.activeString = "Minimizar" then
                -(st.collisions * freeWindow.collisionSelector.getWeight)
              else st.collisions * freeWindow.collisionSelector.getWeight) +
            (if freeWindow.arcLengthSelector.toBinarySelector.activeString = "Minimizar" then
                -(st.arcLength * freeWindow.arcLengthSelector.getWeight)
              else st.arcLength * freeWindow.arcLengthSelector.getWeight) +
            (if freeWindow.distanceSelector.toBinarySelector.activeString = "Minimizar" then
                -(goalDistance freeWindow st.carSprite.position *
                  freeWindow.distanceSelector.getWeight)
              else goalDistance freeWindow st.carSprite.position *
                freeWindow.distanceSelector.getWeight))) ∧
      ∀ selector : BinarySelector,
        (selector.activeString = "Minimizar" ↔ selector.isLeftActive = true) ∧
          (selector.activeString = "Maximizar" ↔ selector.isRightActive = true) :=
  ⟨by decide, objectiveFunction_signs freeWindow diagonal 0 202 (by decide)⟩

/-- C2, as stated, fails: in `collidingWindow` the collision selector is at its right
option, "Maximizar"; the weighted collision value is `1` and the two other weighted values
are `0`; the objective function returns `1`, the weighted value unchanged, and not `-1`. -/
theorem objectiveFunction_maximize_not_negated :
    collidingWindow.collisionSelector.toBinarySelector.activeString = "Maximizar" ∧
    collidingWindow.collisionSelector.isRightActive = true ∧
    ∃ st, objectiveLoop collidingWindow diagonal 202 0 (objectiveInit diagonal 0) = some st ∧
      st.collisions * collidingWindow.collisionSelector.getWeight = 1 ∧
      st.arcLength * collidingWindow.arcLengthSelector.getWeight = 0 ∧
      goalDistance collidingWindow st.carSprite.position *
        collidingWindow.distanceSelector.getWeight = 0 ∧
      objectiveFunction collidingWindow diagonal 0 202 = some 1 ∧
      objectiveFunction collidingWindow diagonal 0 202 ≠ some (-1 + 0 + 0) := by
  refine ⟨by decide, rfl, ?_⟩
  have hloop : objectiveLoop collidingWindow diagonal 202 0 (objectiveInit diagonal 0) =
      some { collisions := 1, arcLength := 0, distanceSum := 0, steps := 2,
             oldPos := collidingWindow.curvePos diagonal 0,
             carSprite := collidingWindow.placeCar (collidingWindow.curvePos diagonal interval)
               (collidingWindow.curvePos diagonal 0) } := by
    rw [objectiveLoop_succ, objectiveLoop_succ]
    simp [objectiveBody, objectiveInit, collidingWindow, interval, BinarySelector.isRightActive]
    norm_num
  refine ⟨_, hloop, ?_, ?_, ?_, ?_, ?_⟩
  · simp [collidingWindow, WeightedBinarySelector.getWeight]
  · simp
  · simp [collidingWindow, WeightedBinarySelector.getWeight]
  · rw [objectiveFunction, objectiveFrom, hloop]
    simp [objectiveValue, collidingWindow, WeightedBinarySelector.getWeight,
      BinarySelector.isLeftActive]
  · rw [objectiveFunction, objectiveFrom, hloop]
    simp [objectiveValue, collidingWindow, WeightedBinarySelector.getWeight,
      BinarySelector.isLeftActive]
    norm_num

/-! ## `constructBezierCurve` -/

theorem bezier_time_lt (step : ℚ) (hstep : 0 < step) (k : Nat) :
    (k : ℚ) * step < 1 + step ↔ k ≤ ⌈1 / step⌉₊ := by
  rcases Nat.eq_zero_or_pos k with rfl | hk
  · simp only [Nat.cast_zero, zero_mul, Nat.zero_le, iff_true]
    linarith
  · obtain ⟨j, rfl⟩ : ∃ j, k = j + 1 := ⟨k - 1, by omega⟩
    have h1 : ((j + 1 : ℕ) : ℚ) * step < 1 + step ↔ (j : ℚ) < 1 / step := by
      rw [lt_div_iff₀ hstep]
      push_cast
      constructor <;> intro h <;> linarith
    rw [h1, ← Nat.lt_ceil]
    omega

/-- The loop of `constructBezierCurve` from sample `k` on, when no collision stop occurs:
it returns, having appended the vertices of the samples `k .. ⌈1 / step⌉`. -/
theorem constructBezierLoop_samples (window : Window) (points : List Point2D) (step : ℚ)
    (color : Color) (hstep : 0 < step)
    (hfree : ∀ k, 1 ≤ k → k ≤ ⌈1 / step⌉₊ →
      (window.carCollides (bezierSprite window points step k) &&
        window.stopSelector.isRightActive) = false) :
    ∀ (r k fuel : Nat) (oldPos : Vector2f) (va : List Vertex), k + r = ⌈1 / step⌉₊ + 1 →
      r + 1 ≤ fuel →
      (1 ≤ k → oldPos = window.curvePos points (((k - 1 : ℕ) : ℚ) * step)) →
      constructBezierLoop window points step color fuel ((k : ℚ) * step) oldPos va =
        some (va ++ (List.range' k r).map
          (fun i => bezierVertex window points color ((i : ℚ) * step))) := by
  intro r
  induction r with
  | zero =>
    intro k fuel oldPos va hk hfuel _
    obtain ⟨f, rfl⟩ : ∃ f, fuel = f + 1 := ⟨fuel - 1, by omega⟩
    have ht : ¬ ((k : ℚ) * step < 1 + step) := by
      rw [bezier_time_lt step hstep]; omega
    rw [constructBezierLoop, if_neg ht]
    simp
  | succ r ih =>
    intro k fuel oldPos va hk hfuel hold
    obtain ⟨f, rfl⟩ : ∃ f, fuel = f + 1 := ⟨fuel - 1, by omega⟩
    have ht : (k : ℚ) * step < 1 + step := (bezier_time_lt step hstep k).2 (by omega)
    have hcond : (decide ((k : ℚ) * step > 0) &&
        (window.carCollides
            (window.placeCar (window.curvePos points ((k : ℚ) * step)) oldPos) &&
          window.stopSelector.isRightActive)) = false := by
      rcases Nat.eq_zero_or_pos k with rfl | hk0
      · simp
      · rw [hold hk0]
        have := hfree k hk0 (by omega)
        unfold bezierSprite at this
        rw [this, Bool.and_false]
    have hnext : (k : ℚ) * step + step = ((k + 1 : ℕ) : ℚ) * step := by
      push_cast; ring
    rw [constructBezierLoop, if_pos ht]
    simp only [hcond, Bool.false_eq_true, if_false]
    rw [hnext, ih (k + 1) f _ _ (by omega) (by omega) (fun _ => by simp)]
    rw [List.range'_succ]
    simp [bezierVertex]

/-- C4, as the code has it: for a positive step, with fuel for the `⌈1 / step⌉ + 2` loop
tests and no collision stop, `constructBezierCurve` returns the vertices of the samples
`k * step` for `k = 0 .. ⌈1 / step⌉`: the first vertex is the curve at `t = 0`, the last is
the curve at `t = ⌈1 / step⌉ * step`, a parameter in `[1, 1 + step)` that equals `1` exactly
when `1 / step` is a whole number. -/
theorem constructBezierCurve_endpoints (window : Window) (points : List Point2D) (step : ℚ)
    (color : Color) (fuel : Nat) (hstep : 0 < step) (hfuel : ⌈1 / step⌉₊ + 2 ≤ fuel)
    (hfree : ∀ k, 1 ≤ k → k ≤ ⌈1 / step⌉₊ →
      (window.carCollides (bezierSprite window points step k) &&
        window.stopSelector.isRightActive) = false) :
    ∃ va, constructBezierCurve window points step color fuel = some va ∧
      va = (List.range (⌈1 / step⌉₊ + 1)).map
        (fun k => bezierVertex window points color ((k : ℚ) * step)) ∧
      va.head? = some (bezierVertex window points color 0) ∧
      va.getLast? = some (bezierVertex window points color ((⌈1 / step⌉₊ : ℚ) * step)) ∧
      1 ≤ (⌈1 / step⌉₊ : ℚ) * step ∧ (⌈1 / step⌉₊ : ℚ) * step < 1 + step ∧
      ((⌈1 / step⌉₊ : ℚ) * step = 1 ↔ ∃ m : ℕ, (m : ℚ) * step = 1) := by
  have hloop := constructBezierLoop_samples window points step color hstep hfree
    (⌈1 / step⌉₊ + 1) 0 fuel ⟨0, 0⟩ [] (by omega) (by omega) (fun h => absurd h (by omega))
  simp only [Nat.cast_zero, zero_mul, List.nil_append] at hloop
  refine ⟨_, hloop, ?_, ?_, ?_, ?_, ?_, ?_⟩
  · rw [List.range_eq_range']
  · rw [List.range'_succ]
    simp
  · rw [List.range'_concat]
    simp
  · have h := Nat.le_ceil (1 / step)
    rw [div_le_iff₀ hstep] at h
    exact h
  · exact (bezier_time_lt step hstep _).2 (le_refl _)
  · constructor
    · intro h
      exact ⟨_, h⟩
    · rintro ⟨m, hm⟩
      have hm2 : 1 / step = (m : ℚ) := by
        rw [div_eq_iff (ne_of_gt hstep)]
        exact hm.symm
      rw [hm2, Nat.ceil_natCast]
      exact hm

theorem constructBezierCurve_endpoints_witness :
    (0 : ℚ) < 1 / 2 ∧ ⌈1 / (1 / 2 : ℚ)⌉₊ + 2 ≤ 4 ∧
    (∀ k, 1 ≤ k → k ≤ ⌈1 / (1 / 2 : ℚ)⌉₊ →
      (freeWindow.carCollides (bezierSprite freeWindow diagonal (1 / 2) k) &&
        freeWindow.stopSelector.isRightActive) = false) ∧
    ∃ va, constructBezierCurve freeWindow diagonal (1 / 2) red 4 = some va ∧
      va = (List.range (⌈1 / (1 / 2 : ℚ)⌉₊ + 1)).map
        (fun k => bezierVertex freeWindow diagonal red ((k : ℚ) * (1 / 2))) ∧
      va.head? = some (bezierVertex freeWindow diagonal red 0) ∧
      va.getLast? =
        some (bezierVertex freeWindow diagonal red ((⌈1 / (1 / 2 : ℚ)⌉₊ : ℚ) * (1 / 2))) ∧
      1 ≤ (⌈1 / (1 / 2 : ℚ)⌉₊ : ℚ) * (1 / 2) ∧
      (⌈1 / (1 / 2 : ℚ)⌉₊ : ℚ) * (1 / 2) < 1 + 1 / 2 ∧
      ((⌈1 / (1 / 2 : ℚ)⌉₊ : ℚ) * (1 / 2) = 1 ↔ ∃ m : ℕ, (m : ℚ) * (1 / 2) = 1) := by
  have hceil : ⌈1 / (1 / 2 : ℚ)⌉₊ = 2 := by
    rw [show (1 / (1 / 2 : ℚ)) = ((2 : ℕ) : ℚ) by norm_num, Nat.ceil_natCast]
  have hfree : ∀ k, 1 ≤ k → k ≤ ⌈1 / (1 / 2 : ℚ)⌉₊ →
      (freeWindow.carCollides (bezierSprite freeWindow diagonal (1 / 2) k) &&
        freeWindow.stopSelector.isRightActive) = false := fun _ _ _ => rfl
  exact ⟨by norm_num, by rw [hceil], hfree,
    constructBezierCurve_endpoints freeWindow diagonal (1 / 2) red 4 (by norm_num)
      (by rw [hceil]) hfree⟩

/-- C4, as stated, fails: with step `3 / 10` on the straight line from `(0, 0)` to `(1, 1)`,
in a window where the car never collides, the loop samples `t = 0, 3/10, 6/10, 9/10, 12/10`
and the last vertex is the curve at `t = 6 / 5`, the point `(6/5, 6/5)`, not the curve at
`t = 1`, the point `(1, 1)`. -/
theorem constructBezierCurve_overshoot :
    (∀ sprite, freeWindow.carCollides sprite = false) ∧
    ∃ va, constructBezierCurve freeWindow diagonal (3 / 10) red 6 = some va ∧
      va.length = 5 ∧
      va.getLast? = some ⟨⟨6 / 5, 6 / 5⟩, red⟩ ∧
      bezierVertex freeWindow diagonal red 1 = ⟨⟨1, 1⟩, red⟩ ∧
      va.getLast? ≠ some (bezierVertex freeWindow diagonal red 1) := by
  refine ⟨fun _ => rfl, ?_⟩
  have hv : ∀ t : ℚ, freeWindow.curvePos diagonal t = ⟨t, t⟩ := by
    intro t
    simp [Window.curvePos, freeWindow, bezierCurve, diagonal, deCasteljau]
  have hva : constructBezierCurve freeWindow diagonal (3 / 10) red 6 =
      some [⟨⟨0, 0⟩, red⟩, ⟨⟨3 / 10, 3 / 10⟩, red⟩, ⟨⟨3 / 5, 3 / 5⟩, red⟩,
        ⟨⟨9 / 10, 9 / 10⟩, red⟩, ⟨⟨6 / 5, 6 / 5⟩, red⟩] := by
    unfold constructBezierCurve
    simp only [constructBezierLoop, hv]
    norm_num [freeWindow, BinarySelector.isRightActive]
  refine ⟨_, hva, rfl, rfl, ?_, ?_⟩
  · simp [bezierVertex, hv]
  · simp [bezierVertex, hv]
    norm_num

/-! ## The trajectory queue -/

/-- The eviction loop on a queue that holds a trajectory with non-zero remaining time: it
returns, having removed a front segment of trajectories with remaining time zero, and
stops at a trajectory with non-zero remaining time. -/
theorem evictFront_drop :
    ∀ l : List Trajectory, (∃ t ∈ l, t.remainingTime ≠ 0) →
      ∃ n, evictFront l = some (l.drop n) ∧ (∀ t ∈ l.take n, t.remainingTime = 0) ∧
        ∃ front rest, l.drop n = front :: rest ∧ front.remainingTime ≠ 0 := by
  intro l
  induction l with
  | nil => rintro ⟨t, ht, -⟩; simp at ht
  | cons a l ih =>
    intro h
    by_cases ha : a.remainingTime = 0
    · have h2 : ∃ t ∈ l, t.remainingTime ≠ 0 := by
        obtain ⟨t, ht, hne⟩ := h
        rw [List.mem_cons] at ht
        rcases ht with rfl | ht
        · exact absurd ha hne
        · exact ⟨t, ht, hne⟩
      obtain ⟨n, h3, h4, h5⟩ := ih h2
      refine ⟨n + 1, ?_, ?_, ?_⟩
      · rw [evictFront, if_pos ha, h3]; rfl
      · intro t ht
        rw [List.take_succ_cons, List.mem_cons] at ht
        rcases ht with rfl | ht
        · exact ha
        · exact h4 t ht
      · simpa using h5
    · refine ⟨0, ?_, by simp, a, l, rfl, ha⟩
      rw [evictFront, if_neg ha]; rfl

theorem LiveQueue.map {l : List Trajectory} (h : LiveQueue l) (f : Trajectory → Trajectory)
    (hf : ∀ t, (f t).remainingTime = t.remainingTime) : LiveQueue (l.map f) := by
  obtain ⟨h1, h2, t, ht, h3⟩ := h
  refine ⟨?_, ?_, f t, List.mem_map_of_mem f ht, by rw [hf, h3]⟩
  · rw [List.pairwise_map]
    exact h1.imp (fun h => by rw [hf, hf]; exact h)
  · intro u hu
    rw [List.mem_map] at hu
    obtain ⟨v, hv, rfl⟩ := hu
    rw [hf]
    exact h2 v hv

theorem Trajectory.uncolored_tick (t : Trajectory) : t.tick.uncolored = t.uncolored.tick := rfl

theorem minmax_foldl (l : List Trajectory) :
    ∀ a b : ℚ,
      let m := l.foldl
        (fun m trajectory =>
          (if trajectory.fitness < m.1 then trajectory.fitness else m.1,
           if trajectory.fitness < m.2 then m.2 else trajectory.fitness))
        (a, b)
      (m.1 ≤ a ∧ (∀ t ∈ l, m.1 ≤ t.fitness) ∧ (m.1 = a ∨ ∃ t ∈ l, t.fitness = m.1)) ∧
        (b ≤ m.2 ∧ (∀ t ∈ l, t.fitness ≤ m.2) ∧ (m.2 = b ∨ ∃ t ∈ l, t.fitness = m.2)) := by
  induction l with
  | nil => intro a b; simp
  | cons c l ih =>
    intro a b
    simp only [List.foldl_cons]
    have hA : (if c.fitness < a then c.fitness else a) ≤ a ∧
        (if c.fitness < a then c.fitness else a) ≤ c.fitness ∧
        ((if c.fitness < a then c.fitness else a) = a ∨
          (if c.fitness < a then c.fitness else a) = c.fitness) := by
      split_ifs with h
      · exact ⟨le_of_lt h, le_refl _, Or.inr rfl⟩
      · exact ⟨le_refl _, not_lt.1 h, Or.inl rfl⟩
    have hB : b ≤ (if c.fitness < b then b else c.fitness) ∧
        c.fitness ≤ (if c.fitness < b then b else c.fitness) ∧
        ((if c.fitness < b then b else c.fitness) = b ∨
          (if c.fitness < b then b else c.fitness) = c.fitness) := by
      split_ifs with h
      · exact ⟨le_refl _, le_of_lt h, Or.inl rfl⟩
      · exact ⟨not_lt.1 h, le_refl _, Or.inr rfl⟩
    have h := ih (if c.fitness < a then c.fitness else a)
      (if c.fitness < b then b else c.fitness)
    generalize (if c.fitness < a then c.fitness else a) = A at hA h ⊢
    generalize (if c.fitness < b then b else c.fitness) = B at hB h ⊢
    obtain ⟨⟨h1, h2, h3⟩, ⟨h4, h5, h6⟩⟩ := h
    refine ⟨⟨le_trans h1 hA.1, ?_, ?_⟩, ⟨le_trans hB.1 h4, ?_, ?_⟩⟩
    · intro t ht
      rw [List.mem_cons] at ht
      rcases ht with rfl | ht
      · exact le_trans h1 hA.2.1
      · exact h2 t ht
    · rcases h3 with h3 | ⟨t, ht, h3⟩
      · rcases hA.2.2 with hA2 | hA2
        · exact Or.inl (h3.trans hA2)
        · exact Or.inr ⟨c, List.mem_cons_self _ _, (h3.trans hA2).symm⟩
      · exact Or.inr ⟨t, List.mem_cons_of_mem _ ht, h3⟩
    · intro t ht
      rw [List.mem_cons] at ht
      rcases ht with rfl | ht
      · exact le_trans hB.2.1 h4
      · exact h5 t ht
    · rcases h6 with h6 | ⟨t, ht, h6⟩
      · rcases hB.2.2 with hB2 | hB2
        · exact Or.inl (h6.trans hB2)
        · exact Or.inr ⟨c, List.mem_cons_self _ _, (h6.trans hB2).symm⟩
      · exact Or.inr ⟨t, List.mem_cons_of_mem _ ht, h6⟩

/-- C6: for a non-empty queue `std::minmax_element` yields the least and the greatest
fitness in the queue, and the normalized fitness `updateTrajectories` colours a trajectory
with lies between `0` and `1`: it is `1` for a trajectory of greatest fitness, `0` for a
trajectory of least fitness when the two differ, and `1` for every trajectory when least
and greatest fitness are equal (the quotient `0 / 0` is discarded). -/
theorem normalizedFitness_range (trajectories : List Trajectory) (hne : trajectories ≠ []) :
    ∃ minFitness maxFitness, minmaxFitness trajectories = some (minFitness, maxFitness) ∧
      (∀ t ∈ trajectories, minFitness ≤ t.fitness ∧ t.fitness ≤ maxFitness) ∧
      (∃ t ∈ trajectories, t.fitness = minFitness) ∧
      (∃ t ∈ trajectories, t.fitness = maxFitness) ∧
      ∀ t ∈ trajectories,
        0 ≤ normalizedFitness minFitness maxFitness t.fitness ∧
        normalizedFitness minFitness maxFitness t.fitness ≤ 1 ∧
        (t.fitness = maxFitness → normalizedFitness minFitness maxFitness t.fitness = 1) ∧
        (t.fitness = minFitness → minFitness ≠ maxFitness →
          normalizedFitness minFitness maxFitness t.fitness = 0) ∧
        (minFitness = maxFitness → normalizedFitness minFitness maxFitness t.fitness = 1) := by
  cases trajectories with
  | nil => exact absurd rfl hne
  | cons first rest =>
    obtain ⟨⟨h1, h2, h3⟩, ⟨h4, h5, h6⟩⟩ := minmax_foldl rest first.fitness first.fitness
    refine ⟨_, _, rfl, ?_, ?_, ?_, ?_⟩
    · intro t ht
      rw [List.mem_cons] at ht
      rcases ht with rfl | ht
      · exact ⟨h1, h4⟩
      · exact ⟨h2 t ht, h5 t ht⟩
    · rcases h3 with h3 | ⟨t, ht, h3⟩
      · exact ⟨first, List.mem_cons_self _ _, h3.symm⟩
      · exact ⟨t, List.mem_cons_of_mem _ ht, h3⟩
    · rcases h6 with h6 | ⟨t, ht, h6⟩
      · exact ⟨first, List.mem_cons_self _ _, h6.symm⟩
      · exact ⟨t, List.mem_cons_of_mem _ ht, h6⟩
    · intro t ht
      have hbounds : (rest.foldl
          (fun m trajectory =>
            (if trajectory.fitness < m.1 then trajectory.fitness else m.1,
             if trajectory.fitness < m.2 then m.2 else trajectory.fitness))
          (first.fitness, first.fitness)).1 ≤ t.fitness ∧
          t.fitness ≤ (rest.foldl
          (fun m trajectory =>
            (if trajectory.fitness < m.1 then trajectory.fitness else m.1,
             if trajectory.fitness < m.2 then m.2 else trajectory.fitness))
          (first.fitness, first.fitness)).2 := by
        rw [List.mem_cons] at ht
        rcases ht with rfl | ht
        · exact ⟨h1, h4⟩
        · exact ⟨h2 t ht, h5 t ht⟩
      generalize (rest.foldl
          (fun m trajectory =>
            (if trajectory.fitness < m.1 then trajectory.fitness else m.1,
             if trajectory.fitness < m.2 then m.2 else trajectory.fitness))
          (first.fitness, first.fitness)) = m at hbounds
      obtain ⟨mn, mx⟩ := m
      simp only at hbounds ⊢
      unfold normalizedFitness
      by_cases heq : mn = mx
      · simp [heq]
      · have hlt : mn < mx := lt_of_le_of_ne (le_trans hbounds.1 hbounds.2) heq
        have hpos : 0 < mx - mn := by linarith
        simp only [heq, if_false]
        refine ⟨div_nonneg (by linarith) (le_of_lt hpos), ?_, ?_, ?_, ?_⟩
        · rw [div_le_one hpos]; linarith
        · intro h; rw [h, div_self (ne_of_gt hpos)]
        · intro h _; rw [h, sub_self, zero_div]
        · intro h; exact absurd h (by simp)

theorem normalizedFitness_range_witness :
    oneTrajectory ≠ [] ∧
    ∃ minFitness maxFitness, minmaxFitness oneTrajectory = some (minFitness, maxFitness) ∧
      (∀ t ∈ oneTrajectory, minFitness ≤ t.fitness ∧ t.fitness ≤ maxFitness) ∧
      (∃ t ∈ oneTrajectory, t.fitness = minFitness) ∧
      (∃ t ∈ oneTrajectory, t.fitness = maxFitness) ∧
      ∀ t ∈ oneTrajectory,
        0 ≤ normalizedFitness minFitness maxFitness t.fitness ∧
        normalizedFitness minFitness maxFitness t.fitness ≤ 1 ∧
        (t.fitness = maxFitness → normalizedFitness minFitness maxFitness t.fitness = 1) ∧
        (t.fitness = minFitness → minFitness ≠ maxFitness →
          normalizedFitness minFitness maxFitness t.fitness = 0) ∧
        (minFitness = maxFitness → normalizedFitness minFitness maxFitness t.fitness = 1) :=
  ⟨by decide, normalizedFitness_range oneTrajectory (by decide)⟩

/-! ## Locking discipline -/

/-- Every occupied row below `k` lies in a maximal run among the first `k` rows. -/
theorem exists_run (occ : Nat → Bool) :
    ∀ k y, y < k → occ y = true → ∃ a b, IsRun occ k a b ∧ a ≤ y ∧ y < b := by
  intro k
  induction k with
  | zero => intro y hy; omega
  | succ k ih =>
    have extend : ∀ a b y, IsRun occ k a b → a ≤ y → y < b →
        ∃ a1 b1, IsRun occ (k + 1) a1 b1 ∧ a1 ≤ y ∧ y < b1 := by
      rintro a b y ⟨h1, h2, h3, h4, h5⟩ hay hyb
      rcases Nat.lt_or_ge b k with hb | hb
      · exact ⟨a, b, ⟨h1, by omega, h3, h4, fun _ => h5 hb⟩, hay, hyb⟩
      · have hbk : b = k := by omega
        subst hbk
        cases hk : occ b with
        | false => exact ⟨a, b, ⟨h1, by omega, h3, h4, fun _ => hk⟩, hay, hyb⟩
        | true =>
          refine ⟨a, b + 1, ⟨by omega, le_refl _, ?_, h4, fun h => absurd h (lt_irrefl _)⟩,
            hay, by omega⟩
          intro z hz1 hz2
          rcases Nat.lt_or_ge z b with hz | hz
          · exact h3 z hz1 hz
          · have : z = b := by omega
            rw [this]; exact hk
    intro y hy hocc
    rcases Nat.lt_or_ge y k with hlt | hge
    · obtain ⟨a, b, hrun, hay, hyb⟩ := ih y hlt hocc
      exact extend a b y hrun hay hyb
    · have hyk : y = k := by omega
      subst hyk
      by_cases hprev : 0 < y ∧ occ (y - 1) = true
      · obtain ⟨a, b, hrun, hay, hyb⟩ := ih (y - 1) (by omega) hprev.2
        have hb : b = y := by have := hrun.2.1; omega
        subst hb
        obtain ⟨h1, h2, h3, h4, h5⟩ := hrun
        refine ⟨a, b + 1, ⟨by omega, le_refl _, ?_, h4, fun h => absurd h (lt_irrefl _)⟩,
          by omega, by omega⟩
        intro z hz1 hz2
        rcases Nat.lt_or_ge z b with hz | hz
        · exact h3 z hz1 hz
        · have : z = b := by omega
          rw [this]; exact hocc
      · refine ⟨y, y + 1, ⟨by omega, le_refl _, ?_, ?_, fun h => absurd h (lt_irrefl _)⟩,
          le_refl _, by omega⟩
        · intro z hz1 hz2
          have : z = y := by omega
          rw [this]; exact hocc
        · intro h0
          by_contra hcon
          exact hprev ⟨h0, by simpa using hcon⟩

/-- A rectangle whose inclusive scan passes over an occupied pixel is not empty. -/
theorem isEmpty_false_of_occupied (image : Image) (rect : FloatRect) (x y : Nat)
    (hx1 : rect.left ≤ x) (hx2 : x ≤ rect.left + rect.width) (hy1 : rect.top ≤ y)
    (hy2 : y ≤ rect.top + rect.height) (hocc : (image.getPixel x y).occupied = true) :
    isEmpty image rect = false := by
  unfold isEmpty
  rw [Bool.eq_false_iff]
  intro hall
  rw [List.all_eq_true] at hall
  have h1 := hall x (by rw [List.mem_range'_1]; omega)
  rw [List.all_eq_true] at h1
  have h2 := h1 y (by rw [List.mem_range'_1]; omega)
  rw [hocc] at h2
  exact Bool.noConfusion h2

/-- C11: for a positive cell size and an image at least one cell wide and one cell high,
whether or not its sides are multiples of the cell size, every occupied pixel of the image
(alpha above zero, not black) lies inside a rectangle returned by `coverScenario`. -/
theorem coverScenario_covers (image : Image) (length : Nat) (hlen : 0 < length)
    (hw : length ≤ image.sizeX) (hh : length ≤ image.sizeY) (x y : Nat)
    (hx : x < image.sizeX) (hy : y < image.sizeY) (ha : (image.getPixel x y).a > 0)
    (hc : (image.getPixel x y).r + (image.getPixel x y).g + (image.getPixel x y).b > 0) :
    ∃ rect ∈ coverScenario image length, rect.containsPixel x y := by
  have hocc : (image.getPixel x y).occupied = true := by
    simp [Color.occupied, ha, hc]
  have hxP : 1 ≤ image.sizeX / length := Nat.div_pos hw hlen
  have hyP : 1 ≤ image.sizeY / length := Nat.div_pos hh hlen
  have hWP : image.sizeX / length * length ≤ image.sizeX := Nat.div_mul_le_self _ _
  have hHP : image.sizeY / length * length ≤ image.sizeY := Nat.div_mul_le_self _ _
  generalize hxParts : image.sizeX / length = xParts at hxP hWP
  generalize hyParts : image.sizeY / length = yParts at hyP hHP
  have hqx1 : x / length * length ≤ x := Nat.div_mul_le_self _ _
  have hqx2 : x < x / length * length + length := by
    have h1 := Nat.div_add_mod x length
    have h2 := Nat.mod_lt x hlen
    rw [Nat.mul_comm] at h1
    omega
  have hqy1 : y / length * length ≤ y := Nat.div_mul_le_self _ _
  have hqy2 : y < y / length * length + length := by
    have h1 := Nat.div_add_mod y length
    have h2 := Nat.mod_lt y hlen
    rw [Nat.mul_comm] at h1
    omega
  obtain ⟨cx, hcx1, hcx2, hcx3⟩ : ∃ cx, cx < xParts ∧ cx * length ≤ x ∧
      x < cx * length + (if cx = xParts - 1 then image.sizeX - cx * length else length) := by
    rcases Nat.lt_or_ge (x / length) (xParts - 1) with h | h
    · exact ⟨x / length, by omega, hqx1, by rw [if_neg (by omega)]; exact hqx2⟩
    · refine ⟨xParts - 1, by omega, ?_, ?_⟩
      · exact le_trans (Nat.mul_le_mul_right _ h) hqx1
      · rw [if_pos rfl]
        have := le_trans (Nat.mul_le_mul_right length h) hqx1
        omega
  obtain ⟨cy, hcy1, hcy2, hcy3, hcy4⟩ : ∃ cy, cy < yParts ∧ cy * length ≤ y ∧
      y < cy * length + (if cy = yParts - 1 then image.sizeY - cy * length else length) ∧
      (cy ≠ yParts - 1 → y < cy * length + length) := by
    rcases Nat.lt_or_ge (y / length) (yParts - 1) with h | h
    · exact ⟨y / length, by omega, hqy1, by rw [if_neg (by omega)]; exact hqy2, fun _ => hqy2⟩
    · refine ⟨yParts - 1, by omega, ?_, ?_, fun h => absurd rfl h⟩
      · exact le_trans (Nat.mul_le_mul_right _ h) hqy1
      · rw [if_pos rfl]
        have := le_trans (Nat.mul_le_mul_right length h) hqy1
        omega
  have hcell : (fun row => !isEmpty image (cellRect image length xParts yParts cx row)) cy =
      true := by
    have : isEmpty image (cellRect image length xParts yParts cx cy) = false := by
      apply isEmpty_false_of_occupied image _ x y _ _ _ _ hocc
      · rw [cellRect_left]; exact hcx2
      · rw [cellRect_left, cellRect_width]; omega
      · rw [cellRect_top]; exact hcy2
      · rw [cellRect_top, cellRect_height]; omega
    simp [this]
  obtain ⟨a, b, hrun, hay, hyb⟩ :=
    exists_run (fun row => !isEmpty image (cellRect image length xParts yParts cx row))
      yParts cy hcy1 hcell
  obtain ⟨runs, hfold, hmem, -⟩ := coverColumn_foldl image length xParts yParts xParts
  have hin : (cx, a, b) ∈ runs := (hmem cx a b).2 ⟨hcx1, hrun⟩
  refine ⟨runRect image length xParts yParts cx a b, ?_, ?_⟩
  · unfold coverScenario
    simp only [hxParts, hyParts]
    rw [hfold]
    exact List.mem_map_of_mem (fun r => runRect image length xParts yParts r.1 r.2.1 r.2.2) hin
  · unfold FloatRect.containsPixel runRect
    simp only [cellRect_left, cellRect_top, cellRect_width, cellRect_height]
    have hb := hrun.2.1
    have h1 : a * length ≤ cy * length := Nat.mul_le_mul_right _ hay
    have h2 : cy * length ≤ (b - 1) * length := Nat.mul_le_mul_right _ (by omega)
    refine ⟨hcx2, hcx3, by omega, ?_⟩
    by_cases hlast : b - 1 = yParts - 1
    · rw [if_pos hlast]
      have h3 : (b - 1) * length ≤ yParts * length := Nat.mul_le_mul_right _ (by omega)
      omega
    · rw [if_neg hlast]
      have h4 := hcy4 (by omega)
      rcases Nat.lt_or_ge cy (b - 1) with hlt | hge
      · have h5 : (cy + 1) * length ≤ (b - 1) * length := Nat.mul_le_mul_right _ hlt
        rw [Nat.add_mul, Nat.one_mul] at h5
        omega
      · have : cy = b - 1 := by omega
        rw [this] at h4 h1
        omega

theorem coverScenario_covers_witness :
    0 < 10 ∧ 10 ≤ whiteImage.sizeX ∧ 10 ≤ whiteImage.sizeY ∧ 24 < whiteImage.sizeX ∧
    34 < whiteImage.sizeY ∧ (whiteImage.getPixel 24 34).a > 0 ∧
    (whiteImage.getPixel 24 34).r + (whiteImage.getPixel 24 34).g +
      (whiteImage.getPixel 24 34).b > 0 ∧
    ∃ rect ∈ coverScenario whiteImage 10, rect.containsPixel 24 34 :=
  ⟨by decide, by decide, by decide, by decide, by decide, by decide, by decide,
    coverScenario_covers whiteImage 10 (by decide) (by decide) (by decide) 24 34 (by decide)
      (by decide) (by decide) (by decide)⟩

/-! ## The pixels read by `isEmpty` -/

theorem all_takeThrough {α : Type} (p : α → Bool) (l : List α) :
    (takeThrough p l).all (fun a => !p a) = l.all (fun a => !p a) := by
  induction l with
  | nil => rfl
  | cons a l ih =>
    cases hp : p a <;> simp [takeThrough, hp, ih]

/-- The verdict of `isEmpty` is decided by the pixels it reads: the rectangle is empty when
none of them is occupied. -/
theorem isEmpty_eq_reads (image : Image) (rect : FloatRect) :
    isEmpty image rect =
      (isEmptyReads image rect).all (fun c => !(image.getPixel c.1 c.2).occupied) := by
  unfold isEmptyReads
  refine Eq.trans ?_
    (all_takeThrough (fun c : Nat × Nat => (image.getPixel c.1 c.2).occupied)
      (scanCoords rect)).symm
  unfold isEmpty scanCoords
  rw [Bool.eq_iff_iff]
  simp only [List.all_eq_true, List.mem_flatMap, List.mem_map, List.mem_range'_1]
  constructor
  · rintro h ⟨cx, cy⟩ ⟨x, hx, y, hy, heq⟩
    rw [Prod.mk.injEq] at heq
    obtain ⟨rfl, rfl⟩ := heq
    exact h x hx y hy
  · intro h x hx y hy
    exact h (x, y) ⟨x, hx, y, hy, rfl⟩

/-- A loop that returns at the first hit visits every element before which there was no
hit. -/
theorem mem_takeThrough {α : Type} (p : α → Bool) (before : List α) (c : α) (after : List α)
    (h : ∀ a ∈ before, p a = false) : c ∈ takeThrough p (before ++ c :: after) := by
  induction before with
  | nil =>
    simp only [List.nil_append, takeThrough]
    split_ifs <;> simp
  | cons a before ih =>
    have ha : p a = false := h a (List.mem_cons_self _ _)
    simp only [List.cons_append, takeThrough, ha, Bool.false_eq_true, if_false]
    exact List.mem_cons_of_mem _ (ih (fun b hb => h b (List.mem_cons_of_mem _ hb)))

/-- C12, at the failing input: on the 10 x 10 all-transparent image with cell size 10,
whatever lies outside the image, `coverScenario` scans the single cell `(0, 0, 10, 10)` and
`isEmpty` calls `getPixel(0, 10)`, whose `y` equals the image height: a read outside the
image. -/
theorem coverScenario_reads_outside (outside : Nat → Nat → Color) :
    (transparentImage outside).sizeX = 10 ∧ (transparentImage outside).sizeY = 10 ∧
      (0, 10) ∈ coverScenarioReads (transparentImage outside) 10 ∧
      ¬ (10 < (transparentImage outside).sizeY) := by
  refine ⟨rfl, rfl, ?_, Nat.lt_irrefl 10⟩
  have hreads : coverScenarioReads (transparentImage outside) 10 =
      isEmptyReads (transparentImage outside) ⟨0, 0, 10, 10⟩ := by
    have hcell : cellRect (transparentImage outside) 10 1 1 0 0 = ⟨0, 0, 10, 10⟩ := rfl
    have h1 : (transparentImage outside).sizeX / 10 = 1 := by
      show 10 / 10 = 1
      decide
    have h2 : (transparentImage outside).sizeY / 10 = 1 := by
      show 10 / 10 = 1
      decide
    unfold coverScenarioReads
    rw [h1, h2]
    simp [List.range_succ, hcell]
  have hscan : scanCoords ⟨0, 0, 10, 10⟩ =
      [(0, 0), (0, 1), (0, 2), (0, 3), (0, 4), (0, 5), (0, 6), (0, 7), (0, 8), (0, 9)] ++
        (0, 10) :: (scanCoords ⟨0, 0, 10, 10⟩).drop 11 := by
    decide
  rw [hreads, isEmptyReads, hscan]
  apply mem_takeThrough
  intro a ha
  simp only [List.mem_cons, List.mem_singleton, List.not_mem_nil, or_false] at ha
  rcases ha with rfl | rfl | rfl | rfl | rfl | rfl | rfl | rfl | rfl | rfl <;> rfl

/-! ## The front of the queue -/

/-- The eviction loop has no result exactly when it inspects the front of an empty
queue. -/
theorem evictFront_eq_none_iff (l : List Trajectory) :
    evictFront l = none ↔ [] ∈ frontInspections l := by
  induction l with
  | nil => simp [evictFront, frontInspections]
  | cons a l ih =>
    by_cases ha : a.remainingTime = 0
    · simp [evictFront, frontInspections, ha, ih]
    · simp [evictFront, frontInspections, ha]

/-- On a queue left by an earlier call with a non-empty population the eviction loop never
inspects the front of an empty queue. -/
theorem frontInspections_live (trajectories : List Trajectory)
    (hlive : LiveQueue trajectories) :
    [] ∉ frontInspections (trajectories.map Trajectory.tick) := by
  rw [← evictFront_eq_none_iff]
  obtain ⟨-, -, top, htop, htop5⟩ := hlive
  have hticked : ∃ t ∈ trajectories.map Trajectory.tick, t.remainingTime ≠ 0 := by
    refine ⟨top.tick, List.mem_map_of_mem _ htop, ?_⟩
    show top.remainingTime - 1 ≠ 0
    rw [htop5]; decide
  obtain ⟨n, hev, -⟩ := evictFront_drop _ hticked
  rw [hev]
  exact Option.some_ne_none _

/-- C13, at the failing input: in the first call of `updateTrajectories` after
`trajectories.clear()`, whatever the population, the decrement loop leaves the queue
empty and the eviction loop evaluates `trajectories.front()` on the empty queue; the call,
and with it the solver loop, has no defined result. -/
theorem updateTrajectories_inspects_empty (window : Window) (fuel : Nat)
    (population : List Individual) (later : List (List Individual)) :
    frontInspections (([] : List Trajectory).map Trajectory.tick) = [[]] ∧
      [] ∈ frontInspections (([] : List Trajectory).map Trajectory.tick) ∧
      updateTrajectories window fuel population [] = none ∧
      solverLoop window fuel (population :: later) = none := by
  refine ⟨rfl, by simp [frontInspections], rfl, rfl⟩

end PathEvolution
